import Mathlib

set_option autoImplicit false

/-!
Verification development for the ACE table-extraction pipeline
(neurosynth/ACE).  The Python modules `ace/tableparser.py`,
`ace/datatable.py`, `ace/database.py` and `ace/sources.py` are shallowly
embedded below: strings become `String`/`List Char`, Python floats become
`Rat`, `None` becomes `Option`, and code paths that raise exceptions
return `Except Unit`.  The concrete regular expressions appearing in the
source are transliterated into token lists interpreted by a small
backtracking matcher with Python (leftmost, greedy, ordered-alternation)
semantics.
-/

namespace ACE

/-- Python regex class `\s` (ASCII core; the Unicode extras are irrelevant
for the inputs handled here). -/
def pyIsSpace (c : Char) : Bool :=
  c = ' ' || c = '\t' || c = '\n' || c = '\r' || c = '\x0b' || c = '\x0c'

/-- Python regex class `\d` (ASCII digits). -/
def pyIsDigit (c : Char) : Bool :=
  '0' ≤ c && c ≤ '9'

/-- Regex class `[a-zA-Z]`. -/
def isAsciiLetter (c : Char) : Bool :=
  ('a' ≤ c && c ≤ 'z') || ('A' ≤ c && c ≤ 'Z')

/-- Regex `.` outside DOTALL mode: any character except a newline. -/
def notNL (c : Char) : Bool :=
  c ≠ '\n'

/-- Python `str.strip()` (whitespace from both ends). -/
def pyStrip (s : List Char) : List Char :=
  ((s.dropWhile pyIsSpace).reverse.dropWhile pyIsSpace).reverse

/-- `pyStrip` on `String`. -/
def stripS (s : String) : String :=
  String.mk (pyStrip s.toList)

/-- Python `str.startswith`, on the character sequence. -/
def startsWithStr (pre s : String) : Bool :=
  pre.toList.isPrefixOf s.toList

/-- Python `str.lower` on one character (ASCII range; the labels the
parser lowercases are ASCII header text). -/
def charLower (c : Char) : Char :=
  if 'A' ≤ c && c ≤ 'Z' then Char.ofNat (c.toNat + 32) else c

/-- Python `str.lower`. -/
def pyLower (s : String) : String :=
  String.mk (s.toList.map charLower)

/-- Python `str.split` with a single-character separator. -/
def splitOnChar (sep : Char) : List Char → List (List Char)
  | [] => [[]]
  | c :: rest =>
    let r := splitOnChar sep rest
    if c = sep then [] :: r else (c :: r.headD []) :: r.tail

/-- Substring test: true when `n` occurs contiguously inside `h`. -/
def containsSub (n : List Char) : List Char → Bool
  | [] => n.isEmpty
  | c :: t => n.isPrefixOf (c :: t) || containsSub n t

/-- Value of a nonempty digit string, as Python `int` computes it. -/
def parseDigits (cs : List Char) : Nat :=
  cs.foldl (fun n c => n * 10 + (c.toNat - 48)) 0

/-!  A tiny regex engine.  Every pattern in the ACE source is a sequence
of literals, single-character classes, starred/repeated classes, capture
group markers and `$` anchors, with alternation only at top level (which
we expand by hand at each use site).  Greedy quantifiers try the longest
consumption first, which reproduces the group captures computed by
Python `regex`. -/

/-- One token of a compiled regular expression. -/
inductive RTok where
  | lit (cs : List Char)
  | cls (p : Char → Bool)
  | star (p : Char → Bool)
  | rep (p : Char → Bool) (lo hi : Nat)
  | dollar
  | grpO (n : Nat)
  | grpC (n : Nat)

/-- First defined element of a list of options. -/
def firstSome {α : Type} : List (Option α) → Option α
  | [] => none
  | some a :: _ => some a
  | none :: rest => firstSome rest

/-- Candidate consumption counts for a greedy `p*`, longest first. -/
def starCounts (p : Char → Bool) (s : List Char) : List Nat :=
  (List.range ((s.takeWhile p).length + 1)).reverse

/-- Candidate consumption counts for a greedy `p{lo,hi}`, longest first. -/
def repCounts (p : Char → Bool) (lo hi : Nat) (s : List Char) : List Nat :=
  let run := (s.takeWhile p).length
  if lo ≤ min run hi then (List.range' lo (min run hi - lo + 1)).reverse else []

/-- Close the most recent opening of group `n` at position `pos`. -/
def capsClose (n pos : Nat) : List (Nat × Nat × Nat) → List (Nat × Nat × Nat)
  | [] => []
  | (m, a, b) :: rest =>
      if m = n then (m, a, pos) :: rest else (m, a, b) :: capsClose n pos rest

/-- Backtracking matcher.  `matchToks toks s pos caps` tries to consume a
prefix of `s` (whose first character sits at absolute position `pos`),
returning the captures of the first success in Python preference order. -/
def matchToks : List RTok → List Char → Nat → List (Nat × Nat × Nat) →
    Option (List (Nat × Nat × Nat))
  | [], _, _, caps => some caps
  | .lit cs :: ts, s, pos, caps =>
      if cs.isPrefixOf s then matchToks ts (s.drop cs.length) (pos + cs.length) caps
      else none
  | .cls p :: ts, s, pos, caps =>
      match s with
      | [] => none
      | c :: s2 => if p c then matchToks ts s2 (pos + 1) caps else none
  | .star p :: ts, s, pos, caps =>
      firstSome ((starCounts p s).map fun k => matchToks ts (s.drop k) (pos + k) caps)
  | .rep p lo hi :: ts, s, pos, caps =>
      firstSome ((repCounts p lo hi s).map fun k => matchToks ts (s.drop k) (pos + k) caps)
  | .dollar :: ts, s, pos, caps =>
      if s = [] || s = ['\n'] then matchToks ts s pos caps else none
  | .grpO n :: ts, s, pos, caps => matchToks ts s pos ((n, pos, pos) :: caps)
  | .grpC n :: ts, s, pos, caps => matchToks ts s pos (capsClose n pos caps)

/-- `regex.match`: anchored at the start of the string. -/
def reMatch (toks : List RTok) (s : List Char) : Option (List (Nat × Nat × Nat)) :=
  matchToks toks s 0 []

/-- `regex.search`: leftmost starting position that admits a match. -/
def reSearchAux (toks : List RTok) : List Char → Nat → Option (List (Nat × Nat × Nat))
  | [], pos => matchToks toks [] pos []
  | c :: rest, pos =>
      match matchToks toks (c :: rest) pos [] with
      | some caps => some caps
      | none => reSearchAux toks rest (pos + 1)

/-- `regex.search` from position 0. -/
def reSearch (toks : List RTok) (s : List Char) : Option (List (Nat × Nat × Nat)) :=
  reSearchAux toks s 0

/-- Text of capture group `n` (positions are absolute in `orig`). -/
def capGet (orig : List Char) (caps : List (Nat × Nat × Nat)) (n : Nat) :
    Option (List Char) :=
  match caps.find? (fun e => e.1 = n) with
  | some (_, a, b) => some ((orig.drop a).take (b - a))
  | none => none

/-!  `Source.ENTITIES` and `Source.decode_html_entities` from
`ace/sources.py`.  The dictionary is kept in its Python insertion order,
which is the order of the compiled alternation; `re.sub` scans left to
right and, at each position, tries the alternatives in this order. -/

/-- The baseline entity-substitution table of `Source`. -/
def ENTITIES : List (List Char × List Char) :=
  [(['&', 'n', 'b', 's', 'p', ';'], [' ']),
   (['&', 'm', 'i', 'n', 'u', 's', ';'], ['-']),
   ([Char.ofNat 0xa0], [' ']),
   ([Char.ofNat 0x2212], ['-']),
   ([Char.ofNat 0x2012], ['-']),
   ([Char.ofNat 0x2013], ['-']),
   ([Char.ofNat 0x2014], ['-']),
   ([Char.ofNat 0x2015], ['-']),
   ([Char.ofNat 0x8211], ['-']),
   ([Char.ofNat 0x0150], ['-']),
   ([Char.ofNat 0x0177], []),
   ([Char.ofNat 0x0160], []),
   ([Char.ofNat 0x0145], [Char.ofNat 39]),
   ([Char.ofNat 0x0146], [Char.ofNat 39]),
   ([Char.ofNat 0x2009], []),
   ([Char.ofNat 0x2007], [])]

/-- First entity whose key is a prefix of `s`, together with the length of
the key. -/
def entHit (s : List Char) : Option (Nat × List Char) :=
  firstSome (ENTITIES.map fun kv =>
    if kv.1.isPrefixOf s then some (kv.1.length, kv.2) else none)

/-- Scanner for `decode_html_entities`, with a fuel argument so that the
recursion is structural (each step consumes at least one character, so
fuel equal to the length of the string is always enough). -/
def decodeAux : Nat → List Char → List Char
  | 0, s => s
  | _ + 1, [] => []
  | fuel + 1, c :: rest =>
    match entHit (c :: rest) with
    | none => c :: decodeAux fuel rest
    | some (n, v) => v ++ decodeAux fuel (rest.drop (n - 1))

/-- `Source.decode_html_entities` over the baseline table: replace each
leftmost, non-overlapping occurrence of an entity key by its value
(the keys never overlap a previous replacement, as in `re.sub`). -/
def decode_html_entities (s : List Char) : List Char :=
  decodeAux s.length s

/-!  `identify_standard_columns` from `ace/tableparser.py`.  Each regex of
the source is transliterated below; alternations with a `^` anchor are
split into separate anchored matches, since without MULTILINE a `^` can
only match at position 0. -/

/-- Class `[xy]`. -/
def isXorY (c : Char) : Bool := c = 'x' || c = 'y'

/-- Class `(z|t)`. -/
def isZorT (c : Char) : Bool := c = 'z' || c = 't'

/-- Class `[\-\s]`. -/
def isDashWs (c : Char) : Bool := c = '-' || pyIsSpace c

/-- regex.search of `(^\s*ba$)|brodmann`. -/
def reBA (s : List Char) : Bool :=
  (reMatch [.star pyIsSpace, .lit ['b', 'a'], .dollar] s).isSome ||
    containsSub ['b', 'r', 'o', 'd', 'm', 'a', 'n', 'n'] s

/-- regex.search of `region|anatom|location|area`. -/
def reRegion (s : List Char) : Bool :=
  containsSub "region".toList s || containsSub "anatom".toList s ||
    containsSub "location".toList s || containsSub "area".toList s

/-- regex.search of `sphere|(^\s*h$)|^\s*hem|^\s*side`. -/
def reHemi (s : List Char) : Bool :=
  containsSub "sphere".toList s ||
    (reMatch [.star pyIsSpace, .lit ['h'], .dollar] s).isSome ||
    (reMatch [.star pyIsSpace, .lit ['h', 'e', 'm']] s).isSome ||
    (reMatch [.star pyIsSpace, .lit ['s', 'i', 'd', 'e']] s).isSome

/-- regex.search of `(^k$)|(mm.*?3)|volume|voxels|size|extent`. -/
def reSize (s : List Char) : Bool :=
  (reMatch [.lit ['k'], .dollar] s).isSome ||
    (reSearch [.lit ['m', 'm'], .star notNL, .lit ['3']] s).isSome ||
    containsSub "volume".toList s || containsSub "voxels".toList s ||
    containsSub "size".toList s || containsSub "extent".toList s

/-- regex.match of `\s*[xy]\s*$`. -/
def reWsXY (s : List Char) : Bool :=
  (reMatch [.star pyIsSpace, .cls isXorY, .star pyIsSpace, .dollar] s).isSome

/-- regex.match of `\s*z\s*$`. -/
def reWsZ (s : List Char) : Bool :=
  (reMatch [.star pyIsSpace, .lit ['z'], .star pyIsSpace, .dollar] s).isSome

/-- regex.search of `^(z|t).*(score|value)` (anchored, so a plain match). -/
def reZT (s : List Char) : Bool :=
  (reMatch [.cls isZorT, .star notNL, .lit "score".toList] s).isSome ||
    (reMatch [.cls isZorT, .star notNL, .lit "value".toList] s).isSome

/-- regex.search of `p[\-\s]+.*val`. -/
def rePVal (s : List Char) : Bool :=
  (reSearch [.lit ['p'], .cls isDashWs, .star isDashWs, .star notNL,
    .lit ['v', 'a', 'l']] s).isSome

/-- One iteration of the classifier: given the previous raw label (the
source reads `labels[i - 1]`, which is only evaluated when the
coordinate flag is set, hence never with a negative index) and the
coordinate flag, produce the assigned role and the updated flag. -/
def stdRole (prev : Option String) (found : Bool) (lab : String) :
    Option String × Bool :=
  let l := lab.toList
  if reBA l then (some "ba", found)
  else if reRegion l then (some "region", found)
  else if reHemi l then (some "hemisphere", found)
  else if reSize l then (some "size", found)
  else if reWsXY l then (some lab, true)
  else if reWsZ l then
    (some (if !found || prev ≠ some "y" then "statistic" else "z"), found)
  else if containsSub "rdinate".toList l then (none, found)
  else if lab = "t" || reZT l then (some "statistic", found)
  else if rePVal l then (some "p_value", found)
  else (none, found)

/-- The classifier loop of `identify_standard_columns`. -/
def stdColsLoop (prev : Option String) (found : Bool) :
    List String → List (Option String)
  | [] => []
  | lab :: rest =>
      let r := stdRole prev found lab
      r.1 :: stdColsLoop (some lab) r.2 rest

/-- `identify_standard_columns`: assign roles to a list of column labels. -/
def identify_standard_columns (labels : List String) : List (Option String) :=
  stdColsLoop none false labels

/-!  `identify_repeating_groups` from `ace/tableparser.py`. -/

/-- Membership in `rep_labels`: labels with two or more occurrences. -/
def isRep (labels : List String) (lab : String) : Bool :=
  2 ≤ labels.count lab

/-- The candidate sequence started at index `i`: the label at `i` (when
repeated) followed by the following labels for as long as they are
repeated and differ from the starting label.  Sequences of length one
are never recorded, which the sentinel `[]` also covers. -/
def seqAt (labels : List String) (i : Nat) : List String :=
  match labels.get? i with
  | none => []
  | some lab =>
      if isRep labels lab then
        lab :: (labels.drop (i + 1)).takeWhile (fun l => isRep labels l && l ≠ lab)
      else []

/-- Number of start positions whose candidate sequence equals `t`. -/
def seqCount (labels : List String) (t : List String) : Nat :=
  ((List.range labels.length).filter (fun j => seqAt labels j = t)).length

/-- `seq_starts`: the sequence recorded at start `i`, provided it has two
or more labels and occurs at two or more start positions. -/
def seqStarts (labels : List String) (i : Nat) : Option (List String) :=
  let t := seqAt labels i
  if 2 ≤ t.length ∧ 2 ≤ seqCount labels t then some t else none

/-- Slice assignment `labels_used[i:i+sz] = [True]*sz`. -/
def setRange (used : List Bool) (i sz : Nat) : List Bool :=
  used.mapIdx (fun j b => if i ≤ j ∧ j < i + sz then true else b)

/-- `all(labels_used[i:i+sz])`. -/
def allUsed (used : List Bool) (i sz : Nat) : Bool :=
  ((used.drop i).take sz).all (fun b => b)

/-- The final claiming loop of `identify_repeating_groups`, folded over
the label indices.  Groups are returned as `(start, length)` pairs, the
data content of the `"start/length"` strings built by the source. -/
def irgStep (labels : List String) (st : List Bool × List (Nat × Nat)) (i : Nat) :
    List Bool × List (Nat × Nat) :=
  match seqStarts labels i with
  | some t =>
      if allUsed st.1 i t.length then st
      else (setRange st.1 i t.length, st.2 ++ [(i, t.length)])
  | none => st

/-- `identify_repeating_groups`: contiguous repeated label sequences. -/
def identify_repeating_groups (labels : List String) : List (Nat × Nat) :=
  ((List.range labels.length).foldl (irgStep labels)
    (List.replicate labels.length false, [])).2

/-!  `DataTable` from `ace/datatable.py`.  Unfilled cells are `None`,
modelled by `none`; the grid always keeps `n_cols` as a separate
attribute, exactly like the Python class. -/

/-- The grid of a `DataTable`. -/
structure DT where
  data : List (List (Option String))
  n_cols : Nat
deriving DecidableEq

/-- Read a cell; out-of-range reads (never exercised on the paths we
verify) yield `none` like an unfilled cell. -/
def cellAt (g : List (List (Option String))) (r c : Nat) : Option String :=
  (g.getD r []).getD c none

/-- Write a cell (`self[r, c] = v`); out-of-range writes are dropped,
which matches no Python behavior but is only reachable on inputs where
the Python code would raise, and none of the verified paths reach it. -/
def setCell (g : List (List (Option String))) (r c : Nat) (v : String) :
    List (List (Option String)) :=
  g.set r ((g.getD r []).set c (some v))

/-- Python 3 `round` on an exact rational: round half to even.  The
fractional part `q - floor q` equals `rnum / q.den`, so comparing it with
`1/2` is comparing `2 * rnum` with `q.den`. -/
def pyRound (q : Rat) : Int :=
  let fl := q.floor
  let rnum := q.num - fl * (q.den : Int)
  if 2 * rnum < (q.den : Int) then fl
  else if (q.den : Int) < 2 * rnum then fl + 1
  else if fl % 2 = 0 then fl else fl + 1

/-- The content written by `add_val` for offset `c` inside the span,
after the colspan has been clipped to `cols2`. -/
def spanContent (val : String) (cols2 c : Nat) : String :=
  if 1 < cols2 then
    if c = 0 then "@@" ++ val ++ "@" ++ toString cols2 else "@@" ++ val
  else val

/-- The inner loop `for c in range(cols)` of `add_val`, writing the cells
of one row of the span in ascending column order. -/
def writeCols (g : List (List (Option String))) (ri ci : Nat) (val : String)
    (cols2 : Nat) : Nat → List (List (Option String))
  | 0 => g
  | k + 1 => setCell (writeCols g ri ci val cols2 k) ri (ci + k)
      (spanContent val cols2 k)

/-- The outer loop `for r in range(rows)` of `add_val`. -/
def writeRows (g : List (List (Option String))) (ri ci : Nat) (val : String)
    (cols2 : Nat) : Nat → List (List (Option String))
  | 0 => g
  | k + 1 => writeCols (writeRows g ri ci val cols2 k) (ri + k) ci val cols2 cols2

/-- The open position used by `add_val`: past the grid when no cell is
`None`, else the index of the first `None` in the flattened grid. -/
def openPosOf (dt : DT) : Nat :=
  if ¬ dt.data.flatten.contains none then dt.data.length * dt.n_cols
  else dt.data.flatten.indexOf none

/-- The number of rows `add_val` appends: the full span when the grid
has no open cell, else enough rows (computed through Python float
division and `round`) to fit the span below the open position. -/
def growCount (dt : DT) (rows : Nat) : Nat :=
  if ¬ dt.data.flatten.contains none then rows
  else
    let tot : Rat := Rat.divInt
      ((dt.data.flatten.indexOf none : Int) + (rows : Int) * (dt.n_cols : Int))
      (dt.n_cols : Int)
    if (dt.data.length : Rat) < tot then (pyRound tot - dt.data.length).toNat
    else 0

/-- The clipped colspan: `if cols + ci > n_cols: cols = n_cols - ci`. -/
def clipCols (nCols ci cols : Nat) : Nat :=
  if nCols < cols + ci then nCols - ci else cols

/-- `DataTable.add_val`: find the next open position and place a value
spanning `rows` rows and `cols` columns, appending rows as needed. -/
def add_val (dt : DT) (val : String) (rows cols : Nat) : DT :=
  let openPos := openPosOf dt
  let data1 := dt.data ++
    List.replicate (growCount dt rows) (List.replicate dt.n_cols none)
  let ri := openPos / dt.n_cols
  let ci := openPos % dt.n_cols
  let cols2 := clipCols dt.n_cols ci cols
  ⟨writeRows data1 ri ci val cols2 rows, dt.n_cols⟩

/-!  The grid-construction part of `Source.parse_table` from
`ace/sources.py`.  The DOM accesses are abstracted into a list of rows,
each row a list of cells carrying text and the already-parsed `rowspan`
and `colspan` attributes (with the source's `"NaN" -> 1` defaulting
applied upstream). -/

/-- One `<td>/<th>` cell as seen by `Source.parse_table`. -/
structure HCell where
  text : String
  rowspan : Nat
  colspan : Nat
deriving DecidableEq

/-- `n_cols_in_row`: the sum of the colspans of a row. -/
def nColsInRow (r : List HCell) : Nat :=
  (r.map (fun c => c.colspan)).sum

/-- The cell loop of `Source.parse_table` for one row: `j` is the row
index, `nCells` the number of cells of the row, `i` the index of the
next cell and `colsFound` the running sum of declared colspans. -/
def srcCellLoop (j nCells nCols : Nat) : DT → Nat → Nat → List HCell → DT
  | dt, _, _, [] => dt
  | dt, i, colsFound, c :: rest =>
      let colsFound2 := colsFound + c.colspan
      let cNum :=
        if i + 1 = nCells ∧ colsFound2 < nCols ∧ dt.data.length = j + 1 ∧
            c.colspan < (dt.data.getD j []).count none then
          c.colspan + (nCols - colsFound2)
        else c.colspan
      srcCellLoop j nCells nCols (add_val dt c.text c.rowspan cNum) (i + 1)
        colsFound2 rest

/-- The row loop of `Source.parse_table`. -/
def srcRowLoop (nCols : Nat) : DT → Nat → List (List HCell) → DT
  | dt, _, [] => dt
  | dt, j, r :: rest => srcRowLoop nCols (srcCellLoop j r.length nCols dt 0 0 r) (j + 1) rest

/-- Grid construction inside `Source.parse_table` (with the default
`CAREFUL_PARSING = True`, `n_cols` is the maximum row width): build the
`DataTable` from the rows and trim a fully empty trailing row.  `none`
is returned when there are no rows, or when the final trailing-row read
`data.data[data.n_rows - 1]` would fail on an empty grid; in both cases
the Python code does not produce a grid. -/
def sourceBuildGrid (rows : List (List HCell)) : Option DT :=
  match rows with
  | [] => none
  | _ :: _ =>
    let nCols := (rows.map nColsInRow).foldl max 0
    let dt := srcRowLoop nCols ⟨[], nCols⟩ 0 rows
    match dt.data.getLast? with
    | none => none
    | some lastRow =>
        if lastRow.count none = dt.n_cols then some ⟨dt.data.dropLast, dt.n_cols⟩
        else some dt

/-!  `Activation` from `ace/database.py` and `create_activation` from
`ace/tableparser.py`.  A cell value is either the raw string or, after
the x/y/z coercion, a Python float (modelled as `Rat`).  Code paths that
raise (`float(...)` on a malformed string, an out-of-range list index)
return `Except.error ()`. -/

/-- A cell value: a string, or a float produced by coercion. -/
inductive Value where
  | s (v : String)
  | f (q : Rat)
deriving DecidableEq

/-- The `groups` attribute: unset after `__init__`, a `group_row`
(`None` or a string) in the ungrouped branch of `parse_table`, or a list
of group labels in the grouped branch. -/
inductive GroupsVal where
  | unset
  | ofRow (g : Option String)
  | ofList (gs : List String)
deriving DecidableEq

/-- An `Activation` record.  `extra` collects `setattr` writes whose
attribute name is none of the declared columns (possible because
`identify_standard_columns` can emit a raw label such as `" x "`). -/
structure Activation where
  x : Option Value := none
  y : Option Value := none
  z : Option Value := none
  region : Option Value := none
  hemisphere : Option Value := none
  ba : Option Value := none
  size : Option Value := none
  statistic : Option Value := none
  p_value : Option Value := none
  columns : List (String × Value) := []
  problems : List String := []
  groups : GroupsVal := .unset
  extra : List (String × Value) := []
deriving DecidableEq

/-- Python dict assignment on an association list: overwrite in place if
the key exists, append otherwise. -/
def assocSet {α β : Type} [DecidableEq α] (l : List (α × β)) (k : α) (v : β) :
    List (α × β) :=
  if l.any (fun p => p.1 = k) then
    l.map (fun p => if p.1 = k then (k, v) else p)
  else l ++ [(k, v)]

/-- `setattr(activation, name, v)`. -/
def setAttr (a : Activation) (name : String) (v : Value) : Activation :=
  if name = "x" then { a with x := some v }
  else if name = "y" then { a with y := some v }
  else if name = "z" then { a with z := some v }
  else if name = "region" then { a with region := some v }
  else if name = "hemisphere" then { a with hemisphere := some v }
  else if name = "ba" then { a with ba := some v }
  else if name = "size" then { a with size := some v }
  else if name = "statistic" then { a with statistic := some v }
  else if name = "p_value" then { a with p_value := some v }
  else { a with extra := assocSet a.extra name v }

/-- Python `float()` on the strings reachable here: optional surrounding
whitespace, an optional single sign, then `d+`, `d+.d*`, `.d+` or
`d+.`.  The exponent, infinity and underscore forms of `float()` are
not produced by any call site, so they are omitted. -/
def pyFloat (s : List Char) : Option Rat :=
  let t := pyStrip s
  let su : Int × List Char :=
    match t with
    | '-' :: r => (-1, r)
    | '+' :: r => (1, r)
    | _ => (1, t)
  let d1 := su.2.takeWhile pyIsDigit
  let u2 := su.2.drop d1.length
  match u2 with
  | [] => if d1.isEmpty then none
      else some (Rat.divInt (su.1 * (parseDigits d1 : Int)) 1)
  | '.' :: r =>
      let d2 := r.takeWhile pyIsDigit
      if ¬ (r.drop d2.length).isEmpty then none
      else if d1.isEmpty && d2.isEmpty then none
      else some (Rat.divInt
        (su.1 * ((parseDigits d1 : Int) * ((10 : Int) ^ d2.length) +
          (parseDigits d2 : Int)))
        ((10 : Int) ^ d2.length))
  | _ => none

/-- `Activation.set_coords`: coerce all three strings with `float` (any
failure raises) and assign them. -/
def set_coords (a : Activation) (xs ys zs : List Char) : Except Unit Activation :=
  match pyFloat xs, pyFloat ys, pyFloat zs with
  | some qx, some qy, some qz =>
      .ok { a with x := some (.f qx), y := some (.f qy), z := some (.f qz) }
  | _, _, _ => .error ()

/-- The test `c == '' or c is None` of `Activation.validate`. -/
def coordMissing : Option Value → Bool
  | none => true
  | some (.s v) => v = ""
  | some (.f _) => false

/-- `abs(c)` inside `Activation.validate`; on a non-numeric value the
Python code prints and re-raises, which we surface as an error. -/
def coordAbs : Option Value → Except Unit Rat
  | some (.f q) => .ok |q|
  | _ => .error ()

/-- `sorted([...])` on exactly three values. -/
def sort3 (a b c : Rat) : List Rat :=
  if a ≤ b then
    if b ≤ c then [a, b, c]
    else if a ≤ c then [a, c, b] else [c, a, b]
  else
    if a ≤ c then [b, a, c]
    else if b ≤ c then [b, c, a] else [c, b, a]

/-- `Activation.validate`: missing or empty coordinates fail, any
absolute coordinate of 100 or more fails, two or more zero coordinates
fail. -/
def validate (a : Activation) : Except Unit Bool :=
  if coordMissing a.x then .ok false else
  match coordAbs a.x with
  | .error e => .error e
  | .ok ax =>
    if (100 : Rat) ≤ ax then .ok false else
    if coordMissing a.y then .ok false else
    match coordAbs a.y with
    | .error e => .error e
    | .ok ay =>
      if (100 : Rat) ≤ ay then .ok false else
      if coordMissing a.z then .ok false else
      match coordAbs a.z with
      | .error e => .error e
      | .ok az =>
        if (100 : Rat) ≤ az then .ok false else
        let sorted := sort3 ax ay az
        if sorted.getD 0 1 = 0 ∧ sorted.getD 1 1 = 0 then .ok false
        else .ok true

/-- regex.match of `[xyz]$` against a standard-column name. -/
def xyzRole (sc : String) : Bool :=
  (reMatch [.cls (fun c => c = 'x' || c = 'y' || c = 'z'), .dollar] sc.toList).isSome

/-- Tokens of `(-)\s+(\d+\.*\d*)$`. -/
def negSpaceToks : List RTok :=
  [.grpO 1, .lit ['-'], .grpC 1, .cls pyIsSpace, .star pyIsSpace,
   .grpO 2, .cls pyIsDigit, .star pyIsDigit, .star (fun c => c = '.'),
   .star pyIsDigit, .grpC 2, .dollar]

/-- The ScienceDirect fix-up: `col = "%s%s" % (m.group(1), m.group(2))`
when `(-)\s+(\d+\.*\d*)$` matches, else the value unchanged. -/
def fixNegSpace (col : String) : String :=
  match reMatch negSpaceToks col.toList with
  | some caps =>
      match capGet col.toList caps 1, capGet col.toList caps 2 with
      | some g1, some g2 => String.mk (g1 ++ g2)
      | _, _ => col
  | none => col

/-- regex.match of `(-*\d+)\.*\d*$`: the x/y/z validity gate. -/
def gateOK (col : String) : Bool :=
  (reMatch [.grpO 1, .star (fun c => c = '-'), .cls pyIsDigit, .star pyIsDigit,
    .grpC 1, .star (fun c => c = '.'), .star pyIsDigit, .dollar] col.toList).isSome

/-- Tokens of one `([\-\.\s]*\d{1,3}\.*\d{0,2})` group of the
multi-coordinate pattern, capturing as group `n`. -/
def csToks (n : Nat) : List RTok :=
  [.grpO n, .star (fun c => c = '-' || c = '.' || pyIsSpace c),
   .rep pyIsDigit 1 3, .star (fun c => c = '.'), .rep pyIsDigit 0 2, .grpC n]

/-- Tokens of the separator `[,;\s]+`. -/
def sepToks : List RTok :=
  [.cls (fun c => c = ',' || c = ';' || pyIsSpace c),
   .star (fun c => c = ',' || c = ';' || pyIsSpace c)]

/-- The full multi-coordinate pattern `cs [,;\s]+ cs [,;\s]+ cs`. -/
def tripleToks : List RTok :=
  csToks 1 ++ sepToks ++ csToks 2 ++ sepToks ++ csToks 3

/-- `regex.sub('-\s+', '-', c)`: delete the whitespace run after each
minus sign.  The flag records whether the scan stands right after an
emitted minus (possibly with deleted whitespace in between), where
further whitespace still belongs to the same match. -/
def subMinusSpaceAux : Bool → List Char → List Char
  | _, [] => []
  | afterMinus, c :: rest =>
    if afterMinus ∧ pyIsSpace c then subMinusSpaceAux true rest
    else if c = '-' then '-' :: subMinusSpaceAux true rest
    else c :: subMinusSpaceAux false rest

/-- `regex.sub('-\s+', '-', c)` on a whole string. -/
def subMinusSpace (s : List Char) : List Char :=
  subMinusSpaceAux false s

/-- `str(col)` as used by the multi-coordinate scan.  A float renders
with digits, an optional minus sign, a dot or a slash only; since the
pattern requires two separators from `[,;\s]`, no float rendering can
match it, so the exact text is immaterial and `Rat.toString` is used. -/
def strOfVal : Value → List Char
  | .s v => v.toList
  | .f q => (toString q).toList

/-- The multi-coordinate harvest at the end of each column iteration of
`create_activation`.  The guard `not i in standard_cols` of the source
compares the integer index with a list of strings and `None`, so it is
always true and every column is scanned. -/
def caHarvest (a : Activation) (colV : Value) : Except Unit Activation :=
  match reSearch tripleToks (pyStrip (strOfVal colV)) with
  | some caps =>
      let orig := pyStrip (strOfVal colV)
      match capGet orig caps 1, capGet orig caps 2, capGet orig caps 3 with
      | some g1, some g2, some g3 =>
          set_coords a (subMinusSpace g1) (subMinusSpace g2) (subMinusSpace g3)
      | _, _, _ => .error ()
  | none => .ok a

/-- Result of the standard-column handling for one column. -/
inductive CAStep where
  | abort (a : Activation)
  | cont (a : Activation) (colV : Value)

/-- The standard-column handling of one column of `create_activation`:
x/y/z columns are fixed up, gated and coerced (aborting on a failed
gate), region columns are checked for letters, and the (possibly
coerced) value is assigned to the attribute named by the role. -/
def caStep (a : Activation) (scO : Option String) (colStr : String) :
    Except Unit CAStep :=
  match scO with
  | none => .ok (.cont a (.s colStr))
  | some sc =>
    if xyzRole sc then
      let col2 := fixNegSpace colStr
      if gateOK col2 then
        match pyFloat col2.toList with
        | some q => .ok (.cont (setAttr a sc (.f q)) (.f q))
        | none => .error ()
      else
        .ok (.abort { a with problems :=
          a.problems ++ ["Value in " ++ sc ++ " column is not valid"] })
    else if sc = "region" then
      let a2 :=
        if colStr.toList.any isAsciiLetter then a
        else { a with problems :=
          a.problems ++ ["Value in region column is not a string"] }
      .ok (.cont (setAttr a2 sc (.s colStr)) (.s colStr))
    else .ok (.cont (setAttr a sc (.s colStr)) (.s colStr))

/-- The column loop of `create_activation`.  An abort returns the
activation immediately (skipping the final `groups` assignment); the
normal exit assigns `groups`. -/
def caLoop (labels : List String) (std : List (Option String)) (g : GroupsVal) :
    Activation → Nat → List String → Except Unit Activation
  | a, _, [] => .ok { a with groups := g }
  | a, i, colStr :: rest =>
    match std.get? i with
    | none => .error ()
    | some scO =>
      match caStep a scO colStr with
      | .error e => .error e
      | .ok (.abort a2) => .ok a2
      | .ok (.cont a2 colV) =>
        match labels.get? i with
        | none => .error ()
        | some lab =>
          let a3 := { a2 with columns := assocSet a2.columns lab colV }
          match caHarvest a3 colV with
          | .error e => .error e
          | .ok a4 => caLoop labels std g a4 (i + 1) rest

/-- `create_activation`. -/
def create_activation (data : List String) (labels : List String)
    (std : List (Option String)) (g : GroupsVal) : Except Unit Activation :=
  caLoop labels std g {} 0 data

/-!  `parse_table` from `ace/tableparser.py`.  The grid is the
`DataTable` contents; on the paths exercised here all cells are strings
(a grid containing an unfilled `None` cell makes the Python label scan
raise before anything is produced). -/

/-- A `Table`, reduced to the fields `parse_table` populates. -/
structure Table where
  activations : List Activation
  n_activations : Nat
deriving DecidableEq

/-- Tokens of the multi-column marker pattern `^@@(.*)@(\d+)$`. -/
def mcToks : List RTok :=
  [.lit ['@', '@'], .grpO 1, .star notNL, .grpC 1, .lit ['@'],
   .grpO 2, .cls pyIsDigit, .star pyIsDigit, .grpC 2, .dollar]

/-- Tokens of `\d+.*\d+.*\d+`. -/
def threeNumToks : List RTok :=
  [.cls pyIsDigit, .star pyIsDigit, .star notNL,
   .cls pyIsDigit, .star pyIsDigit, .star notNL,
   .cls pyIsDigit, .star pyIsDigit]

/-- `found_xyz`: search for `\d+.*\d+.*\d+` in the row joined by `/`. -/
def foundXyzRow (r : List String) : Bool :=
  (reSearch threeNumToks (String.intercalate "/" r).toList).isSome

/-- The else-arm of the label-scan cell step: record a multi-column
label marker `^@@(.*)@(\d+)$` under the key `(column, digit text)`. -/
def scanCellMc (st : List (Option String) × List ((Nat × String) × String))
    (j : Nat) (val : String) :
    List (Option String) × List ((Nat × String) × String) :=
  match reMatch mcToks val.toList with
  | some caps =>
      match capGet val.toList caps 1, capGet val.toList caps 2 with
      | some g1, some g2 => (st.1, assocSet st.2 (j, String.mk g2) (String.mk g1))
      | _, _ => (st.1, st.2)
  | none => (st.1, st.2)

/-- One cell of the label-identification loop: `fx` is the `found_xyz`
flag of the row, the state carries the labels and the multi-column
label dictionary keyed by `(start index, digit text of the colspan)`. -/
def scanCell (fx : Bool)
    (st : List (Option String) × List ((Nat × String) × String))
    (jv : Nat × String) :
    List (Option String) × List ((Nat × String) × String) :=
  let j := jv.1
  let val := stripS jv.2
  if val ≠ "" ∧ ¬ startsWithStr "@@" val ∧ st.1.getD j none = none then
    if j = 0 ∧ (¬ (st.1.drop 1).contains none ∨ fx) then
      (st.1.set 0 (some "region"), st.2)
    else (st.1.set j (some val), st.2)
  else scanCellMc st j val

/-- One row of the label-identification loop. -/
def scanRow (st : List (Option String) × List ((Nat × String) × String))
    (r : List String) :
    List (Option String) × List ((Nat × String) × String) :=
  r.enum.foldl (scanCell (foundXyzRow r)) st

/-- regex.search of `(ordinate|x.*y.*z)` against a multi-column label. -/
def reOrdXYZ (v : List Char) : Bool :=
  containsSub "ordinate".toList v ||
    (reSearch [.lit ['x'], .star notNL, .lit ['y'], .star notNL, .lit ['z']] v).isSome

/-- One entry of the multi-column coordinate rewrite: when the label text
mentions coordinates and the covered labels have no letters, splice in
`x`, `y`, `z` (a slice assignment, so the label list can change length
when the span is not 3). -/
def rewriteStep (labels : List String) (entry : (Nat × String) × String) :
    List String :=
  if reOrdXYZ entry.2.toList then
    let start := entry.1.1
    let stop := start + parseDigits entry.1.2.toList
    let joined := String.join ((labels.drop start).take (stop - start))
    if joined.toList.any isAsciiLetter then labels
    else labels.take start ++ ["x", "y", "z"] ++ labels.drop stop
  else labels

/-- `cols_in_group` marking for one group; marking an index outside the
list raises in Python. -/
def markGroup (cols : List Bool) (onset len : Nat) : Except Unit (List Bool) :=
  (List.range' onset len).foldlM (fun cs i =>
    if i < cs.length then .ok (cs.set i true) else .error ()) cols

/-- The header-repeat test: `match_lab` is true when any cell equals the
label of its column; reading a label beyond the label list raises. -/
def matchLabCheck (labels : List String) (r : List String) : Except Unit Bool :=
  r.enum.foldlM (fun acc iv =>
    match labels.get? iv.1 with
    | none => .error ()
    | some l => .ok (acc || iv.2 == l)) false

/-- Tokens of `@(\d+)`. -/
def atDigitsToks : List RTok :=
  [.lit ['@'], .grpO 1, .cls pyIsDigit, .star pyIsDigit, .grpC 1]

/-- Lookup of the key `"%d/%d" % (onset, len)` in the multi-column label
dictionary (whose keys keep the raw digit text, so `3/02` never matches
`3/2`). -/
def mcLookup (mc : List ((Nat × String) × String)) (onset len : Nat) :
    Option String :=
  match mc.find? (fun e => e.1.1 == onset && e.1.2 == toString len) with
  | some e => some e.2
  | none => none

/-- The column selection of the grouped branch: all columns outside any
group plus the columns of the current group, producing the parallel
label, cell and standard-column lists. -/
def selectCols (r : List String) (cig : List Bool) (labels : List String)
    (std : List (Option String)) (onset len : Nat) :
    Except Unit (List String × List String × List (Option String)) :=
  r.enum.foldlM (fun acc iv =>
    match cig.get? iv.1 with
    | none => .error ()
    | some b =>
      if ¬ b ∨ (onset ≤ iv.1 ∧ iv.1 < onset + len) then
        match labels.get? iv.1, std.get? iv.1 with
        | some l, some s => .ok (acc.1 ++ [l], acc.2.1 ++ [iv.2], acc.2.2 ++ [s])
        | _, _ => .error ()
      else .ok acc) ([], [], [])

/-- The full-column-span group-heading test on the first cell: when the
cell is a continuation marker, the first `@`-digits group is read (its
absence raises) and compared with `n_cols`; on equality the text after
the marker becomes the group heading. -/
def fullSpanCheck (r0 : String) (nCols : Nat) :
    Except Unit (Option String) :=
  if startsWithStr "@@" r0 then
    match reSearch atDigitsToks r0.toList with
    | none => .error ()
    | some caps =>
      match capGet r0.toList caps 1 with
      | none => .error ()
      | some ds =>
        if parseDigits ds = nCols then
          match (splitOnChar '@' r0.toList).get? 2 with
          | none => .error ()
          | some seg => .ok (some (String.mk (pyStrip seg)))
        else .ok none
  else .ok none

/-- The body of the grouped branch for one group span. -/
def groupStep (r : List String) (cig : List Bool) (labels : List String)
    (std : List (Option String)) (mc : List ((Nat × String) × String))
    (st : Option String × List Activation) (g : Nat × Nat) :
    Except Unit (Option String × List Activation) :=
  let groups0 := match mcLookup mc g.1 g.2 with | some v => [v] | none => []
  let groups1 := groups0 ++ (match st.1 with | some gr => [gr] | none => [])
  match selectCols r cig labels std g.1 g.2 with
  | .error e => .error e
  | .ok sel =>
    match create_activation sel.2.1 sel.1 sel.2.2 (.ofList groups1) with
    | .error e => .error e
    | .ok a =>
      match validate a with
      | .error e => .error e
      | .ok true => .ok (st.1, st.2 ++ [a])
      | .ok false => .ok st

/-- One iteration of the row loop of `parse_table`: the state carries the
current `group_row` and the accumulated activations. -/
def rowStep (labels : List String) (std : List (Option String))
    (groupCols : List (Nat × Nat)) (cig : List Bool)
    (mc : List ((Nat × String) × String)) (nCols : Nat)
    (st : Option String × List Activation) (r : List String) :
    Except Unit (Option String × List Activation) :=
  match matchLabCheck labels r with
  | .error e => .error e
  | .ok matchLab =>
    if matchLab then .ok st
    else
      match r.get? 0 with
      | none => .error ()
      | some r0 =>
        if r0 ≠ "" ∧ stripS (String.join (r.drop 1)) = "" then
          .ok (some (stripS r0), st.2)
        else
          match fullSpanCheck r0 nCols with
          | .error e => .error e
          | .ok (some heading) => .ok (some heading, st.2)
          | .ok none =>
            if r.length ≠ nCols ∨
                containsSub ['@', '@'] (String.intercalate " " r).toList then
              .ok st
            else if groupCols.isEmpty then
              match create_activation r labels std (.ofRow st.1) with
              | .error e => .error e
              | .ok a =>
                match validate a with
                | .error e => .error e
                | .ok true => .ok (st.1, st.2 ++ [a])
                | .ok false => .ok st
            else
              groupCols.foldlM (groupStep r cig labels std mc) st

/-- `parse_table`: identify labels, detect standard columns and repeating
groups, iterate the data rows and return the `Table` when at least one
activation survived validation.  The `None in labels` guard of the
source is dead at that point (the lowercase conversion has already
replaced missing labels by the empty string), so it has no counterpart
here. -/
def parse_table (grid : List (List String)) (nColsIn : Nat) :
    Except Unit (Option Table) :=
  let scanned := grid.foldl scanRow (List.replicate nColsIn none, [])
  let labels2 := scanned.1.map (fun o => match o with
    | some s => pyLower s
    | none => "")
  let nCols := labels2.length
  let mc := scanned.2
  let labels3 := mc.foldl rewriteStep labels2
  let std := identify_standard_columns labels3
  let groupCols := identify_repeating_groups labels3
  match groupCols.foldlM (fun cs g => markGroup cs g.1 g.2)
      (List.replicate nCols false) with
  | .error e => .error e
  | .ok cig =>
    match grid.foldlM (rowStep labels3 std groupCols cig mc nCols) (none, []) with
    | .error e => .error e
    | .ok fin =>
      .ok (if fin.2.isEmpty then none else some ⟨fin.2, fin.2.length⟩)

/-!  Claim-side vocabulary: predicates in which the specification
properties are stated, to be compared with the embedded code. -/

/-- The validator property of section 4.4 of the specification: x, y and
z are all present, every absolute coordinate is below 100, and at most
one coordinate is zero. -/
def ValidSpecA (a : Activation) : Prop :=
  ∃ qx qy qz : Rat,
    a.x = some (.f qx) ∧ a.y = some (.f qy) ∧ a.z = some (.f qz) ∧
    |qx| < 100 ∧ |qy| < 100 ∧ |qz| < 100 ∧
    ((if qx = 0 then 1 else 0) + (if qy = 0 then 1 else 0) +
      (if qz = 0 then 1 else 0) : Nat) ≤ 1

/-- Column `j` lies inside the span `(start, length)`. -/
def inSpan (g : Nat × Nat) (j : Nat) : Prop :=
  g.1 ≤ j ∧ j < g.1 + g.2

/-- Column `j` is covered by one of the spans. -/
def coveredBy (gs : List (Nat × Nat)) (j : Nat) : Prop :=
  ∃ g ∈ gs, inSpan g j

instance (g : Nat × Nat) (j : Nat) : Decidable (inSpan g j) :=
  inferInstanceAs (Decidable (g.1 ≤ j ∧ j < g.1 + g.2))

instance (gs : List (Nat × Nat)) (j : Nat) : Decidable (coveredBy gs j) :=
  inferInstanceAs (Decidable (∃ g ∈ gs, inSpan g j))

/-- Every span of the list claims at least one column that no span
before it covers. -/
def FreshSpans (gs : List (Nat × Nat)) : Prop :=
  ∀ pre g post, gs = pre ++ g :: post → ∃ j, inSpan g j ∧ ¬ coveredBy pre j

/-- Sum of the declared colspans of a list of cells. -/
def colspanSum (cs : List HCell) : Nat :=
  (cs.map (fun c => c.colspan)).sum

/-- An x or y label (with optional surrounding whitespace, the notion of
section 4.2 of the specification) occurs before position `i`. -/
def sawCoordBefore (labels : List String) (i : Nat) : Bool :=
  (labels.take i).any (fun l => reWsXY l.toList)

/-- The `labels[i - 1]` value seen by the classifier at position `i` of
the loop: the initial `prev` at position 0, else the previous label. -/
def prevOf (p : Option String) (ls : List String) : Nat → Option String
  | 0 => p
  | i + 1 => some (ls.getD i "")

/-- The standard roles of the specification. -/
def roleList : List String :=
  ["x", "y", "z", "region", "hemisphere", "ba", "size", "statistic", "p_value"]

/-- The characters that can begin an entity key: the ampersand of the
two named entities and the single-character keys themselves. -/
def entStartChar (c : Char) : Bool :=
  c = '&' || c = Char.ofNat 0xa0 || c = Char.ofNat 0x2212 ||
  c = Char.ofNat 0x2012 || c = Char.ofNat 0x2013 || c = Char.ofNat 0x2014 ||
  c = Char.ofNat 0x2015 || c = Char.ofNat 0x8211 || c = Char.ofNat 0x0150 ||
  c = Char.ofNat 0x0177 || c = Char.ofNat 0x0160 || c = Char.ofNat 0x0145 ||
  c = Char.ofNat 0x0146 || c = Char.ofNat 0x2009 || c = Char.ofNat 0x2007

/-- The grid after placing a list of cells without any colspan
adjustment: the state reached by the cell loop just before its last
cell. -/
def srcPrefix (dt : DT) (cs : List HCell) : DT :=
  cs.foldl (fun d c => add_val d c.text c.rowspan c.colspan) dt

deriving instance DecidableEq for Except

/-!  ## Theorems

First the entity-decoding laws (claim C5), then the table machinery. -/

theorem firstSome_mem {α : Type} {l : List (Option α)} {a : α}
    (h : firstSome l = some a) : some a ∈ l := by
  induction l with
  | nil => simp [firstSome] at h
  | cons o rest ih =>
    cases o with
    | some b =>
      simp only [firstSome] at h
      exact h ▸ List.mem_cons_self _ _
    | none =>
      simp only [firstSome] at h
      exact List.mem_cons_of_mem _ (ih h)

theorem firstSome_forall_none {α : Type} {l : List (Option α)}
    (h : firstSome l = none) : ∀ o ∈ l, o = none := by
  induction l with
  | nil => intro o ho; cases ho
  | cons o rest ih =>
    cases o with
    | some b => simp [firstSome] at h
    | none =>
      intro o2 ho
      rcases List.mem_cons.mp ho with h1 | h1
      · exact h1
      · exact ih (by simpa [firstSome] using h) o2 h1

theorem entHit_some {s : List Char} {n : Nat} {v : List Char}
    (h : entHit s = some (n, v)) :
    ∃ kv, kv ∈ ENTITIES ∧ kv.1.isPrefixOf s = true ∧ n = kv.1.length ∧ v = kv.2 := by
  have hm := firstSome_mem h
  rcases List.mem_map.mp hm with ⟨kv, hkv, he⟩
  by_cases hp : kv.1.isPrefixOf s
  · rw [if_pos hp] at he
    obtain ⟨h1, h2⟩ := Prod.mk.injEq .. ▸ Option.some.inj he
    exact ⟨kv, hkv, hp, h1.symm, h2.symm⟩
  · rw [if_neg hp] at he
    cases he

theorem isPrefixOf_cons_head {a b : Char} {as bs : List Char}
    (h : (a :: as).isPrefixOf (b :: bs) = true) : a = b := by
  simp [List.isPrefixOf] at h
  exact h.1

theorem ENTITIES_heads :
    ∀ kv ∈ ENTITIES, kv.1 ≠ [] ∧ entStartChar (kv.1.headD ' ') = true := by
  decide

theorem entHit_start {c : Char} {rest : List Char} {x : Nat × List Char}
    (h : entHit (c :: rest) = some x) : entStartChar c = true := by
  obtain ⟨kv, hkv, hp, -, -⟩ :=
    entHit_some (s := c :: rest) (n := x.1) (v := x.2) (by simpa using h)
  have hhead := ENTITIES_heads kv hkv
  obtain ⟨k0, ks, hk⟩ := List.exists_cons_of_ne_nil hhead.1
  rw [hk] at hp
  have := isPrefixOf_cons_head hp
  have h2 := hhead.2
  rw [hk] at h2
  simpa [this] using h2

theorem single_key_hit {c : Char} {v : List Char} (rest : List Char)
    (hk : ([c], v) ∈ ENTITIES) : entHit (c :: rest) ≠ none := by
  intro h
  have hall := firstSome_forall_none h
  have hmem := List.mem_map_of_mem
    (fun kv : List Char × List Char =>
      if kv.1.isPrefixOf (c :: rest) then some (kv.1.length, kv.2) else none) hk
  have := hall _ hmem
  simp [List.isPrefixOf] at this

theorem entStart_cases {c : Char} (h : entStartChar c = true) (hamp : c ≠ '&') :
    ∃ v, ([c], v) ∈ ENTITIES := by
  simp only [entStartChar, Bool.or_eq_true, decide_eq_true_eq] at h
  rcases h with
    ((((((((((((((h | h) | h) | h) | h) | h) | h) | h) | h) | h) | h) | h) | h) | h) | h)
  all_goals first
    | exact absurd h hamp
    | (subst h; exact ⟨[' '], by decide⟩)
    | (subst h; exact ⟨['-'], by decide⟩)
    | (subst h; exact ⟨[], by decide⟩)
    | (subst h; exact ⟨[Char.ofNat 39], by decide⟩)

theorem entVal_safe :
    ∀ kv ∈ ENTITIES, ∀ c ∈ kv.2, entStartChar c = false := by decide

theorem decode_id_of_safe :
    ∀ (fuel : Nat) (s : List Char), (∀ c ∈ s, entStartChar c = false) →
      decodeAux fuel s = s := by
  intro fuel
  induction fuel with
  | zero => intro s _; rfl
  | succ n ih =>
    intro s h
    cases s with
    | nil => rfl
    | cons c rest =>
      cases hent : entHit (c :: rest) with
      | some x =>
        have hs := entHit_start hent
        rw [h c (List.mem_cons_self _ _)] at hs
        cases hs
      | none =>
        simp only [decodeAux, hent]
        rw [ih rest (fun d hd => h d (List.mem_cons_of_mem _ hd))]

theorem decode_safe_chars :
    ∀ (fuel : Nat) (s : List Char), s.length ≤ fuel → (∀ c ∈ s, c ≠ '&') →
      ∀ d ∈ decodeAux fuel s, entStartChar d = false := by
  intro fuel
  induction fuel with
  | zero =>
    intro s hl h d hd
    have : s = [] := List.eq_nil_of_length_eq_zero (Nat.le_zero.mp hl)
    subst this
    cases hd
  | succ n ih =>
    intro s hl h d hd
    cases s with
    | nil => cases hd
    | cons c rest =>
      cases hent : entHit (c :: rest) with
      | none =>
        simp only [decodeAux, hent] at hd
        rcases List.mem_cons.mp hd with h1 | h1
        · subst h1
          by_cases hc : entStartChar d = false
          · exact hc
          · obtain ⟨v, hkv⟩ := entStart_cases (by revert hc; cases entStartChar d <;> simp)
              (h d (List.mem_cons_self _ _))
            exact absurd hent (single_key_hit rest hkv)
        · exact ih rest (by simpa using Nat.le_of_succ_le_succ (by simpa using hl))
            (fun e he => h e (List.mem_cons_of_mem _ he)) d h1
      | some x =>
        obtain ⟨m, v⟩ := x
        simp only [decodeAux, hent] at hd
        rcases List.mem_append.mp hd with h1 | h1
        · obtain ⟨kv, hkv, -, -, hv⟩ := entHit_some hent
          exact entVal_safe kv hkv d (hv ▸ h1)
        · refine ih (rest.drop (m - 1)) ?_ ?_ d h1
          · calc (rest.drop (m - 1)).length ≤ rest.length := by
                  simp [List.length_drop]
              _ ≤ n := by simpa using Nat.le_of_succ_le_succ (by simpa using hl)
          · intro e he
            exact h e (List.mem_cons_of_mem _ (List.drop_subset _ _ he))

/-- C5.  The claim that entity decoding is idempotent on every string is
refuted below; the amended statement proved here restricts it to inputs
without an ampersand, where a deleted character can never splice
together a new occurrence of a named entity. -/
theorem c5_decode_idempotent_no_amp (s : List Char) (h : ∀ c ∈ s, c ≠ '&') :
    decode_html_entities (decode_html_entities s) = decode_html_entities s := by
  unfold decode_html_entities
  exact decode_id_of_safe _ _ (decode_safe_chars s.length s le_rfl h)

/-- C5 counterexample: deleting the thin space inside `&nbsp ;`
creates a new `&nbsp;` occurrence, so a second decoding pass changes the
string again. -/
theorem c5_counterexample :
    decode_html_entities (decode_html_entities
      ['&', 'n', 'b', 's', 'p', Char.ofNat 0x2009, ';']) ≠
      decode_html_entities ['&', 'n', 'b', 's', 'p', Char.ofNat 0x2009, ';'] := by
  decide

/-- C5 witness: the amended idempotence law at a concrete input. -/
theorem c5_witness :
    decode_html_entities (decode_html_entities ['a', Char.ofNat 0x2212, '3']) =
      decode_html_entities ['a', Char.ofNat 0x2212, '3'] :=
  c5_decode_idempotent_no_amp _ (by decide)

/-!  Claim C2: the spans emitted by `identify_repeating_groups`. -/

theorem length_setRange (used : List Bool) (i sz : Nat) :
    (setRange used i sz).length = used.length := by
  simp [setRange]

theorem setRange_getD_true {used : List Bool} {i sz j : Nat}
    (hij : i ≤ j) (hj : j < i + sz) (hlen : j < used.length) :
    (setRange used i sz).getD j false = true := by
  rw [List.getD_eq_getElem?_getD,
    List.getElem?_eq_getElem (by simpa [length_setRange] using hlen)]
  simp [setRange, List.getElem_mapIdx, hij, hj]

theorem setRange_getD_false {used : List Bool} {i sz j : Nat}
    (h : (setRange used i sz).getD j false = false) : used.getD j false = false := by
  by_cases hlen : j < used.length
  · rw [List.getD_eq_getElem?_getD,
      List.getElem?_eq_getElem (by simpa [length_setRange] using hlen)] at h
    simp only [setRange, List.getElem_mapIdx] at h
    rw [List.getD_eq_getElem?_getD, List.getElem?_eq_getElem hlen]
    split at h
    · cases h
    · simpa using h
  · rw [List.getD_eq_getElem?_getD, List.getElem?_eq_none (by omega)]
    rfl

theorem allUsed_false_ex {used : List Bool} {i sz : Nat}
    (h : allUsed used i sz = false) :
    ∃ j, i ≤ j ∧ j < i + sz ∧ used.getD j false = false := by
  unfold allUsed at h
  rw [List.all_eq_false] at h
  obtain ⟨x, hx, hpx⟩ := h
  obtain ⟨k, hk, hxk⟩ := List.mem_iff_getElem.mp hx
  have hks : k < sz := by simp at hk; omega
  have hklen : i + k < used.length := by simp at hk; omega
  refine ⟨i + k, Nat.le_add_right _ _, by omega, ?_⟩
  rw [List.getD_eq_getElem?_getD, List.getElem?_eq_getElem hklen]
  have hval : ((used.drop i).take sz)[k] = used[i + k] := by
    rw [List.getElem_take, List.getElem_drop]
  rw [hval] at hxk
  subst hxk
  simpa using hpx

theorem seqStarts_inv {labels : List String} {i : Nat} {t : List String}
    (h : seqStarts labels i = some t) : t = seqAt labels i ∧ 2 ≤ t.length := by
  simp only [seqStarts] at h
  by_cases hc : 2 ≤ (seqAt labels i).length ∧ 2 ≤ seqCount labels (seqAt labels i)
  · rw [if_pos hc] at h
    obtain rfl := Option.some.inj h
    exact ⟨rfl, hc.1⟩
  · rw [if_neg hc] at h
    cases h

theorem seqAt_eq_of_get {labels : List String} {i : Nat} {lab : String}
    (hg : labels.get? i = some lab) :
    seqAt labels i = if isRep labels lab then
      lab :: (labels.drop (i + 1)).takeWhile (fun l => isRep labels l && l ≠ lab)
    else [] := by
  unfold seqAt
  rw [hg]

theorem seqAt_le {labels : List String} {i : Nat} (h : seqAt labels i ≠ []) :
    i < labels.length ∧ i + (seqAt labels i).length ≤ labels.length := by
  cases hg : labels.get? i with
  | none =>
    unfold seqAt at h
    rw [hg] at h
    simp at h
  | some lab =>
    have hi : i < labels.length := (List.get?_eq_some.mp hg).1
    refine ⟨hi, ?_⟩
    rw [seqAt_eq_of_get hg]
    by_cases hr : isRep labels lab
    · simp only [if_pos hr, List.length_cons]
      have := (List.takeWhile_sublist
        (l := labels.drop (i + 1)) (fun l => isRep labels l && l ≠ lab)).length_le
      simp only [List.length_drop] at this
      omega
    · simp only [if_neg hr, List.length_nil]
      omega

theorem irgStep_none (labels : List String) (st : List Bool × List (Nat × Nat))
    (i : Nat) (hs : seqStarts labels i = none) : irgStep labels st i = st := by
  simp [irgStep, hs]

theorem irgStep_skip (labels : List String) (st : List Bool × List (Nat × Nat))
    (i : Nat) (t : List String) (hs : seqStarts labels i = some t)
    (ha : allUsed st.1 i t.length = true) : irgStep labels st i = st := by
  simp [irgStep, hs, ha]

theorem irgStep_emit (labels : List String) (u : List Bool)
    (acc : List (Nat × Nat)) (i : Nat) (t : List String)
    (hs : seqStarts labels i = some t) (ha : ¬ allUsed u i t.length = true) :
    irgStep labels (u, acc) i = (setRange u i t.length, acc ++ [(i, t.length)]) := by
  simp [irgStep, hs, ha]

theorem irg_acc (labels : List String) :
    ∀ (idxs : List Nat) (used : List Bool) (acc : List (Nat × Nat)),
      idxs.foldl (irgStep labels) (used, acc) =
        ((idxs.foldl (irgStep labels) (used, [])).1,
          acc ++ (idxs.foldl (irgStep labels) (used, [])).2) := by
  intro idxs
  induction idxs with
  | nil => intro used acc; simp
  | cons i rest ih =>
    intro used acc
    simp only [List.foldl_cons]
    cases hs : seqStarts labels i with
    | none =>
      rw [irgStep_none labels _ i hs, irgStep_none labels _ i hs]
      exact ih used acc
    | some t =>
      by_cases ha : allUsed used i t.length = true
      · rw [irgStep_skip labels _ i t hs ha, irgStep_skip labels _ i t hs ha]
        exact ih used acc
      · rw [irgStep_emit labels used acc i t hs ha, irgStep_emit labels used [] i t hs ha]
        rw [ih (setRange used i t.length) (acc ++ [(i, t.length)]),
          ih (setRange used i t.length) ([] ++ [(i, t.length)])]
        simp

theorem irg_mem (labels : List String) :
    ∀ (idxs : List Nat) (used : List Bool) (g : Nat × Nat),
      g ∈ (idxs.foldl (irgStep labels) (used, [])).2 →
      ∃ t, seqStarts labels g.1 = some t ∧ g.2 = t.length := by
  intro idxs
  induction idxs with
  | nil => intro used g hg; simp at hg
  | cons i rest ih =>
    intro used g hg
    simp only [List.foldl_cons] at hg
    cases hs : seqStarts labels i with
    | none => rw [irgStep_none labels _ i hs] at hg; exact ih used g hg
    | some t =>
      by_cases ha : allUsed used i t.length = true
      · rw [irgStep_skip labels _ i t hs ha] at hg; exact ih used g hg
      · rw [irgStep_emit labels used [] i t hs ha] at hg
        rw [irg_acc] at hg
        simp only [List.nil_append] at hg
        rcases List.mem_append.mp hg with h1 | h1
        · simp at h1
          subst h1
          exact ⟨t, hs, rfl⟩
        · exact ih (setRange used i t.length) g h1

theorem irg_fresh_aux (labels : List String) :
    ∀ (idxs : List Nat) (used : List Bool),
      used.length = labels.length →
      ∀ pre g post,
        (idxs.foldl (irgStep labels) (used, [])).2 = pre ++ g :: post →
        ∃ j, inSpan g j ∧ used.getD j false = false ∧ ¬ coveredBy pre j := by
  intro idxs
  induction idxs with
  | nil =>
    intro used _ pre g post heq
    simp at heq
  | cons i rest ih =>
    intro used hlen pre g post heq
    simp only [List.foldl_cons] at heq
    cases hs : seqStarts labels i with
    | none => rw [irgStep_none labels _ i hs] at heq; exact ih used hlen pre g post heq
    | some t =>
      by_cases ha : allUsed used i t.length = true
      · rw [irgStep_skip labels _ i t hs ha] at heq; exact ih used hlen pre g post heq
      · rw [irgStep_emit labels used [] i t hs ha] at heq
        rw [irg_acc] at heq
        simp only [List.nil_append, List.singleton_append] at heq
        cases pre with
        | nil =>
          simp only [List.nil_append] at heq
          have hgi : g = (i, t.length) := (List.cons.injEq .. ▸ heq).1.symm
          obtain ⟨j, h1, h2, h3⟩ := allUsed_false_ex (by simpa using ha)
          refine ⟨j, ?_, h3, by simp [coveredBy]⟩
          rw [hgi]
          exact ⟨h1, h2⟩
        | cons p0 pre2 =>
          simp only [List.cons_append] at heq
          have hp0 : (i, t.length) = p0 := (List.cons.injEq .. ▸ heq).1
          have htail : (rest.foldl (irgStep labels) (setRange used i t.length, [])).2 =
              pre2 ++ g :: post := (List.cons.injEq .. ▸ heq).2
          obtain ⟨j, hspan, hfalse, hnpre⟩ := ih (setRange used i t.length)
            (by rw [length_setRange, hlen]) pre2 g post htail
          refine ⟨j, hspan, setRange_getD_false hfalse, ?_⟩
          intro hcov
          rcases hcov with ⟨g2, hg2, hjg2⟩
          rcases List.mem_cons.mp hg2 with h1 | h1
          · subst h1
            rw [← hp0] at hjg2
            obtain ⟨t2, hs2, hlen2⟩ := irg_mem labels rest (setRange used i t.length) g
              (htail ▸ List.mem_append_right pre2 (List.mem_cons_self _ _))
            obtain ⟨ht2, hge2⟩ := seqStarts_inv hs2
            have hne : seqAt labels g.1 ≠ [] := by
              rw [← ht2]
              intro hnil
              rw [hnil] at hge2
              simp at hge2
            have hbound := seqAt_le hne
            have hjlen : j < labels.length := by
              have h1 := hspan.2
              rw [hlen2, ht2] at h1
              omega
            have := setRange_getD_true hjg2.1 hjg2.2 (by rw [hlen]; exact hjlen)
            rw [this] at hfalse
            cases hfalse
          · exact hnpre ⟨g2, h1, hjg2⟩

/-- C2.  The claim that the spans of `identify_repeating_groups` are
pairwise disjoint is refuted below; the amended statement proved here is
the guarantee the claiming loop actually provides: every emitted span
contains at least one column that no earlier emitted span covers. -/
theorem c2_spans_fresh (labels : List String) :
    FreshSpans (identify_repeating_groups labels) := by
  intro pre g post heq
  obtain ⟨j, h1, -, h3⟩ := irg_fresh_aux labels (List.range labels.length)
    (List.replicate labels.length false) (by simp) pre g post heq
  exact ⟨j, h1, h3⟩

/-- C2 counterexample: on this header list the detector emits the spans
`(0,2)` and `(1,3)`, which both contain column 1. -/
theorem c2_counterexample :
    identify_repeating_groups
        ["a", "b", "a", "c", "u", "a", "b", "v", "b", "a", "c"] =
      [(0, 2), (1, 3), (5, 2), (8, 3)] ∧
    inSpan (0, 2) 1 ∧ inSpan (1, 3) 1 := by
  refine ⟨by decide, by decide, by decide⟩

/-- C2 witness: the amended statement applied to the list above, at the
second emitted span. -/
theorem c2_witness : ∃ j, inSpan (1, 3) j ∧ ¬ coveredBy [(0, 2)] j :=
  c2_spans_fresh ["a", "b", "a", "c", "u", "a", "b", "v", "b", "a", "c"]
    [(0, 2)] (1, 3) [(5, 2), (8, 3)] (by decide)

/-!  Inversion principles for the token matcher, used to reason about
the classifier regexes on arbitrary labels. -/

theorem take_all_of_le_takeWhile {p : Char → Bool} :
    ∀ (s : List Char) (k : Nat), k ≤ (s.takeWhile p).length →
      (s.take k).all p = true := by
  intro s
  induction s with
  | nil =>
    intro k hk
    simp at hk
    subst hk
    rfl
  | cons c rest ih =>
    intro k hk
    cases k with
    | zero => rfl
    | succ k2 =>
      by_cases hpc : p c
      · rw [List.takeWhile_cons, if_pos hpc, List.length_cons] at hk
        rw [List.take_succ_cons, List.all_cons, hpc, Bool.true_and]
        exact ih k2 (by omega)
      · rw [List.takeWhile_cons, if_neg hpc] at hk
        simp at hk

theorem matchToks_lit_inv {cs : List Char} {ts : List RTok} {s : List Char}
    {pos : Nat} {caps r : List (Nat × Nat × Nat)}
    (h : matchToks (.lit cs :: ts) s pos caps = some r) :
    cs.isPrefixOf s = true ∧
      matchToks ts (s.drop cs.length) (pos + cs.length) caps = some r := by
  simp only [matchToks] at h
  by_cases hp : cs.isPrefixOf s
  · rw [if_pos hp] at h
    exact ⟨hp, h⟩
  · rw [if_neg hp] at h
    cases h

theorem matchToks_cls_inv {p : Char → Bool} {ts : List RTok} {s : List Char}
    {pos : Nat} {caps r : List (Nat × Nat × Nat)}
    (h : matchToks (.cls p :: ts) s pos caps = some r) :
    ∃ c s2, s = c :: s2 ∧ p c = true ∧ matchToks ts s2 (pos + 1) caps = some r := by
  cases s with
  | nil => simp [matchToks] at h
  | cons c s2 =>
    simp only [matchToks] at h
    by_cases hpc : p c
    · rw [if_pos hpc] at h
      exact ⟨c, s2, rfl, hpc, h⟩
    · rw [if_neg hpc] at h
      cases h

theorem matchToks_star_inv {p : Char → Bool} {ts : List RTok} {s : List Char}
    {pos : Nat} {caps r : List (Nat × Nat × Nat)}
    (h : matchToks (.star p :: ts) s pos caps = some r) :
    ∃ k, (s.take k).all p = true ∧
      matchToks ts (s.drop k) (pos + k) caps = some r := by
  simp only [matchToks] at h
  rcases List.mem_map.mp (firstSome_mem h) with ⟨k, hk, he⟩
  refine ⟨k, ?_, he⟩
  have hk2 : k ≤ (s.takeWhile p).length := by
    simp [starCounts, List.mem_range] at hk
    omega
  exact take_all_of_le_takeWhile s k hk2

theorem matchToks_rep_inv {p : Char → Bool} {lo hi : Nat} {ts : List RTok}
    {s : List Char} {pos : Nat} {caps r : List (Nat × Nat × Nat)}
    (h : matchToks (.rep p lo hi :: ts) s pos caps = some r) :
    ∃ k, lo ≤ k ∧ k ≤ hi ∧ (s.take k).all p = true ∧
      matchToks ts (s.drop k) (pos + k) caps = some r := by
  simp only [matchToks] at h
  rcases List.mem_map.mp (firstSome_mem h) with ⟨k, hk, he⟩
  simp only [repCounts] at hk
  split at hk
  · rw [List.mem_reverse, List.mem_range'] at hk
    refine ⟨k, by omega, by omega, ?_, he⟩
    exact take_all_of_le_takeWhile s k (by omega)
  · cases hk

theorem matchToks_dollar_inv {ts : List RTok} {s : List Char}
    {pos : Nat} {caps r : List (Nat × Nat × Nat)}
    (h : matchToks (.dollar :: ts) s pos caps = some r) :
    (s = [] ∨ s = ['\n']) ∧ matchToks ts s pos caps = some r := by
  simp only [matchToks] at h
  split at h
  · next hc =>
      simp only [Bool.or_eq_true, decide_eq_true_eq] at hc
      exact ⟨hc, h⟩
  · cases h

theorem matchToks_grpO_inv {n : Nat} {ts : List RTok} {s : List Char}
    {pos : Nat} {caps r : List (Nat × Nat × Nat)}
    (h : matchToks (.grpO n :: ts) s pos caps = some r) :
    matchToks ts s pos ((n, pos, pos) :: caps) = some r := h

theorem matchToks_grpC_inv {n : Nat} {ts : List RTok} {s : List Char}
    {pos : Nat} {caps r : List (Nat × Nat × Nat)}
    (h : matchToks (.grpC n :: ts) s pos caps = some r) :
    matchToks ts s pos (capsClose n pos caps) = some r := h

/-- Any literal token of a successful match has all its characters in
the subject, and any class token has a witness character in the
subject. -/
theorem matchToks_tok_mem :
    ∀ {toks : List RTok} {s : List Char} {pos : Nat}
      {caps r : List (Nat × Nat × Nat)}, matchToks toks s pos caps = some r →
      (∀ cs, RTok.lit cs ∈ toks → ∀ c ∈ cs, c ∈ s) ∧
      (∀ p, RTok.cls p ∈ toks → ∃ c ∈ s, p c = true) := by
  intro toks
  induction toks with
  | nil =>
    intro s pos caps r _
    constructor
    · intro cs hcs; cases hcs
    · intro p hp; cases hp
  | cons tk ts ih =>
    intro s pos caps r h
    have hdrop : ∀ (k : Nat) (c : Char), c ∈ s.drop k → c ∈ s :=
      fun k c hc => (List.drop_subset k s) hc
    cases tk with
    | lit cs =>
      obtain ⟨hp, h2⟩ := matchToks_lit_inv h
      obtain ⟨ihl, ihc⟩ := ih h2
      constructor
      · intro cs2 hcs2 c hc
        rcases List.mem_cons.mp hcs2 with h1 | h1
        · have hcs : cs2 = cs := by injection h1
          exact (List.isPrefixOf_iff_prefix.mp hp).subset (hcs ▸ hc)
        · exact hdrop _ c (ihl cs2 h1 c hc)
      · intro p hp2
        rcases List.mem_cons.mp hp2 with h1 | h1
        · cases h1
        · obtain ⟨c, hc, hpc⟩ := ihc p h1
          exact ⟨c, hdrop _ c hc, hpc⟩
    | cls p =>
      obtain ⟨c, s2, rfl, hpc, h2⟩ := matchToks_cls_inv h
      obtain ⟨ihl, ihc⟩ := ih h2
      constructor
      · intro cs2 hcs2 d hd
        rcases List.mem_cons.mp hcs2 with h1 | h1
        · cases h1
        · exact List.mem_cons_of_mem _ (ihl cs2 h1 d hd)
      · intro q hq
        rcases List.mem_cons.mp hq with h1 | h1
        · have hq : q = p := by injection h1
          exact ⟨c, List.mem_cons_self _ _, hq ▸ hpc⟩
        · obtain ⟨d, hd, hqd⟩ := ihc q h1
          exact ⟨d, List.mem_cons_of_mem _ hd, hqd⟩
    | star p =>
      obtain ⟨k, -, h2⟩ := matchToks_star_inv h
      obtain ⟨ihl, ihc⟩ := ih h2
      constructor
      · intro cs2 hcs2 d hd
        rcases List.mem_cons.mp hcs2 with h1 | h1
        · cases h1
        · exact hdrop _ d (ihl cs2 h1 d hd)
      · intro q hq
        rcases List.mem_cons.mp hq with h1 | h1
        · cases h1
        · obtain ⟨d, hd, hqd⟩ := ihc q h1
          exact ⟨d, hdrop _ d hd, hqd⟩
    | rep p lo hi =>
      obtain ⟨k, -, -, -, h2⟩ := matchToks_rep_inv h
      obtain ⟨ihl, ihc⟩ := ih h2
      constructor
      · intro cs2 hcs2 d hd
        rcases List.mem_cons.mp hcs2 with h1 | h1
        · cases h1
        · exact hdrop _ d (ihl cs2 h1 d hd)
      · intro q hq
        rcases List.mem_cons.mp hq with h1 | h1
        · cases h1
        · obtain ⟨d, hd, hqd⟩ := ihc q h1
          exact ⟨d, hdrop _ d hd, hqd⟩
    | dollar =>
      obtain ⟨-, h2⟩ := matchToks_dollar_inv h
      obtain ⟨ihl, ihc⟩ := ih h2
      constructor
      · intro cs2 hcs2 d hd
        rcases List.mem_cons.mp hcs2 with h1 | h1
        · cases h1
        · exact ihl cs2 h1 d hd
      · intro q hq
        rcases List.mem_cons.mp hq with h1 | h1
        · cases h1
        · exact ihc q h1
    | grpO n =>
      obtain ⟨ihl, ihc⟩ := ih (matchToks_grpO_inv h)
      constructor
      · intro cs2 hcs2 d hd
        rcases List.mem_cons.mp hcs2 with h1 | h1
        · cases h1
        · exact ihl cs2 h1 d hd
      · intro q hq
        rcases List.mem_cons.mp hq with h1 | h1
        · cases h1
        · exact ihc q h1
    | grpC n =>
      obtain ⟨ihl, ihc⟩ := ih (matchToks_grpC_inv h)
      constructor
      · intro cs2 hcs2 d hd
        rcases List.mem_cons.mp hcs2 with h1 | h1
        · cases h1
        · exact ihl cs2 h1 d hd
      · intro q hq
        rcases List.mem_cons.mp hq with h1 | h1
        · cases h1
        · exact ihc q h1

theorem containsSub_subset {n : List Char} :
    ∀ {h : List Char}, containsSub n h = true → ∀ c ∈ n, c ∈ h := by
  intro h
  induction h with
  | nil =>
    intro hc c hcn
    unfold containsSub at hc
    rw [List.isEmpty_iff] at hc
    subst hc
    cases hcn
  | cons c0 t ih =>
    intro hc c hcn
    unfold containsSub at hc
    simp only [Bool.or_eq_true] at hc
    rcases hc with h1 | h1
    · exact (List.isPrefixOf_iff_prefix.mp h1).subset hcn
    · exact List.mem_cons_of_mem _ (ih h1 c hcn)

/-!  Character analysis of the classifier regexes (claims C6 and C7). -/

theorem reWsXY_chars {l : List Char} (h : reWsXY l = true) :
    ∀ c ∈ l, pyIsSpace c = true ∨ isXorY c = true := by
  rw [reWsXY, Option.isSome_iff_exists] at h
  obtain ⟨r, hr⟩ := h
  obtain ⟨k1, hall1, h1⟩ := matchToks_star_inv hr
  obtain ⟨c0, s2, hsplit, hc0, h2⟩ := matchToks_cls_inv h1
  obtain ⟨k2, hall2, h3⟩ := matchToks_star_inv h2
  obtain ⟨hd, -⟩ := matchToks_dollar_inv h3
  intro c hc
  rcases List.mem_append.mp ((List.take_append_drop k1 l) ▸ hc) with hmem | hmem
  · exact Or.inl (List.all_eq_true.mp hall1 c hmem)
  · rw [hsplit] at hmem
    rcases List.mem_cons.mp hmem with h4 | h4
    · exact Or.inr (h4 ▸ hc0)
    · rcases List.mem_append.mp ((List.take_append_drop k2 s2) ▸ h4) with h5 | h5
      · exact Or.inl (List.all_eq_true.mp hall2 c h5)
      · rcases hd with hd | hd
        · rw [hd] at h5; cases h5
        · rw [hd] at h5
          rcases List.mem_singleton.mp h5 with rfl
          exact Or.inl (by decide)

theorem reWsZ_chars {l : List Char} (h : reWsZ l = true) :
    ∀ c ∈ l, pyIsSpace c = true ∨ c = 'z' := by
  rw [reWsZ, Option.isSome_iff_exists] at h
  obtain ⟨r, hr⟩ := h
  obtain ⟨k1, hall1, h1⟩ := matchToks_star_inv hr
  obtain ⟨hpref, h2⟩ := matchToks_lit_inv h1
  obtain ⟨k2, hall2, h3⟩ := matchToks_star_inv h2
  obtain ⟨hd, -⟩ := matchToks_dollar_inv h3
  obtain ⟨t, ht⟩ := List.isPrefixOf_iff_prefix.mp hpref
  intro c hc
  rcases List.mem_append.mp ((List.take_append_drop k1 l) ▸ hc) with hmem | hmem
  · exact Or.inl (List.all_eq_true.mp hall1 c hmem)
  · rw [← ht] at hmem
    rcases List.mem_append.mp hmem with h4 | h4
    · exact Or.inr (List.mem_singleton.mp h4)
    · have ht2 : (l.drop k1).drop ['z'].length = t := by rw [← ht]; simp
      rw [← ht2] at h4
      rcases List.mem_append.mp
          ((List.take_append_drop k2 ((l.drop k1).drop ['z'].length)) ▸ h4) with h5 | h5
      · exact Or.inl (List.all_eq_true.mp hall2 c h5)
      · rcases hd with hd | hd
        · rw [hd] at h5; cases h5
        · rw [hd] at h5
          rcases List.mem_singleton.mp h5 with rfl
          exact Or.inl (by decide)

/-- A label made only of whitespace and the letters x, y, z is never
caught by the ba, region, hemisphere or size branches. -/
theorem classifier_falls {l : List Char}
    (h : ∀ c ∈ l, pyIsSpace c = true ∨ c = 'x' ∨ c = 'y' ∨ c = 'z') :
    reBA l = false ∧ reRegion l = false ∧ reHemi l = false ∧ reSize l = false := by
  have hbad : ∀ c, c ∈ l → pyIsSpace c = false → c = 'x' ∨ c = 'y' ∨ c = 'z' := by
    intro c hc hws
    rcases h c hc with h1 | h1
    · rw [h1] at hws; cases hws
    · exact h1
  have hlit : ∀ (toks : List RTok) (cs : List Char) (c : Char),
      RTok.lit cs ∈ toks → c ∈ cs → pyIsSpace c = false →
      c ≠ 'x' → c ≠ 'y' → c ≠ 'z' →
      ∀ pos caps, matchToks toks l pos caps = none := by
    intro toks cs c htk hcc hws hx hy hz pos caps
    cases hm : matchToks toks l pos caps with
    | none => rfl
    | some r =>
      have := (matchToks_tok_mem hm).1 cs htk c hcc
      rcases hbad c this hws with h1 | h1 | h1 <;> simp [h1] at hx hy hz
  have hsub : ∀ (n : List Char) (c : Char), c ∈ n → pyIsSpace c = false →
      c ≠ 'x' → c ≠ 'y' → c ≠ 'z' → containsSub n l = false := by
    intro n c hcc hws hx hy hz
    cases hm : containsSub n l with
    | false => rfl
    | true =>
      have := containsSub_subset hm c hcc
      rcases hbad c this hws with h1 | h1 | h1 <;> simp [h1] at hx hy hz
  refine ⟨?_, ?_, ?_, ?_⟩
  · simp only [reBA, reMatch]
    rw [hlit _ ['b', 'a'] 'b' (List.mem_cons_of_mem _ (List.mem_cons_self _ _))
        (List.mem_cons_self _ _) (by decide) (by decide) (by decide) (by decide) 0 []]
    rw [hsub ['b', 'r', 'o', 'd', 'm', 'a', 'n', 'n'] 'b' (by decide) (by decide)
        (by decide) (by decide) (by decide)]
    rfl
  · simp only [reRegion]
    rw [hsub "region".toList 'r' (by decide) (by decide) (by decide) (by decide)
        (by decide),
      hsub "anatom".toList 'a' (by decide) (by decide) (by decide) (by decide)
        (by decide),
      hsub "location".toList 'l' (by decide) (by decide) (by decide) (by decide)
        (by decide),
      hsub "area".toList 'r' (by decide) (by decide) (by decide) (by decide)
        (by decide)]
    rfl
  · simp only [reHemi, reMatch]
    rw [hsub "sphere".toList 's' (by decide) (by decide) (by decide) (by decide)
        (by decide)]
    rw [hlit _ ['h'] 'h' (List.mem_cons_of_mem _ (List.mem_cons_self _ _))
        (List.mem_cons_self _ _) (by decide) (by decide) (by decide) (by decide) 0 []]
    rw [hlit _ ['h', 'e', 'm'] 'h' (List.mem_cons_of_mem _ (List.mem_cons_self _ _))
        (List.mem_cons_self _ _) (by decide) (by decide) (by decide) (by decide) 0 []]
    rw [hlit _ ['s', 'i', 'd', 'e'] 's' (List.mem_cons_of_mem _ (List.mem_cons_self _ _))
        (List.mem_cons_self _ _) (by decide) (by decide) (by decide) (by decide) 0 []]
    rfl
  · simp only [reSize, reMatch]
    rw [hlit _ ['k'] 'k' (List.mem_cons_self _ _)
        (List.mem_cons_self _ _) (by decide) (by decide) (by decide) (by decide) 0 []]
    have hmm3 : reSearch [.lit ['m', 'm'], .star notNL, .lit ['3']] l = none := by
      rw [reSearch]
      have haux : ∀ (s2 : List Char) (pos : Nat), (∀ c ∈ s2, c ∈ l) →
          reSearchAux [.lit ['m', 'm'], .star notNL, .lit ['3']] s2 pos = none := by
        intro s2
        induction s2 with
        | nil => intro pos _; rfl
        | cons c rest ih =>
          intro pos hsub2
          rw [reSearchAux]
          have hnone : matchToks [.lit ['m', 'm'], .star notNL, .lit ['3']]
              (c :: rest) pos [] = none := by
            cases hm : matchToks [.lit ['m', 'm'], .star notNL, .lit ['3']]
                (c :: rest) pos [] with
            | none => rfl
            | some r =>
              have hmem := (matchToks_tok_mem hm).1 ['m', 'm']
                (List.mem_cons_self _ _) 'm' (List.mem_cons_self _ _)
              have hml := hsub2 'm' hmem
              rcases hbad 'm' hml (by decide) with h1 | h1 | h1 <;> cases h1
          rw [hnone]
          exact ih (pos + 1) (fun d hd => hsub2 d (List.mem_cons_of_mem _ hd))
      exact haux l 0 (fun c hc => hc)
    rw [hmm3]
    rw [hsub "volume".toList 'v' (by decide) (by decide) (by decide) (by decide)
        (by decide),
      hsub "voxels".toList 'v' (by decide) (by decide) (by decide) (by decide)
        (by decide),
      hsub "size".toList 'i' (by decide) (by decide) (by decide) (by decide)
        (by decide),
      hsub "extent".toList 'e' (by decide) (by decide) (by decide) (by decide)
        (by decide)]
    rfl

theorem reWsXY_false_of_wsz {l : List Char}
    (h : ∀ c ∈ l, pyIsSpace c = true ∨ c = 'z') : reWsXY l = false := by
  cases hm : reWsXY l with
  | false => rfl
  | true =>
    rw [reWsXY, Option.isSome_iff_exists] at hm
    obtain ⟨r, hr⟩ := hm
    obtain ⟨c, hcl, hcxy⟩ := (matchToks_tok_mem hr).2 isXorY
      (List.mem_cons_of_mem _ (List.mem_cons_self _ _))
    simp only [isXorY, Bool.or_eq_true, decide_eq_true_eq] at hcxy
    rcases h c hcl with h1 | h1 <;>
      rcases hcxy with rfl | rfl <;> exact absurd h1 (by decide)

theorem stdRole_wsXY {prev : Option String} {found : Bool} {lab : String}
    (h : reWsXY lab.toList = true) : stdRole prev found lab = (some lab, true) := by
  have hch : ∀ c ∈ lab.toList, pyIsSpace c = true ∨ c = 'x' ∨ c = 'y' ∨ c = 'z' := by
    intro c hc
    rcases reWsXY_chars h c hc with h1 | h1
    · exact Or.inl h1
    · simp only [isXorY, Bool.or_eq_true, decide_eq_true_eq] at h1
      rcases h1 with rfl | rfl
      · exact Or.inr (Or.inl rfl)
      · exact Or.inr (Or.inr (Or.inl rfl))
  obtain ⟨hba, hreg, hhem, hsiz⟩ := classifier_falls hch
  simp [stdRole, show reBA lab.data = false from hba,
    show reRegion lab.data = false from hreg,
    show reHemi lab.data = false from hhem,
    show reSize lab.data = false from hsiz,
    show reWsXY lab.data = true from h]

theorem stdRole_wsZ {prev : Option String} {found : Bool} {lab : String}
    (h : reWsZ lab.toList = true) :
    stdRole prev found lab =
      (some (if !found || prev ≠ some "y" then "statistic" else "z"), found) := by
  have hch0 := reWsZ_chars h
  have hch : ∀ c ∈ lab.toList, pyIsSpace c = true ∨ c = 'x' ∨ c = 'y' ∨ c = 'z' := by
    intro c hc
    rcases hch0 c hc with h1 | h1
    · exact Or.inl h1
    · exact Or.inr (Or.inr (Or.inr h1))
  obtain ⟨hba, hreg, hhem, hsiz⟩ := classifier_falls hch
  have hxy := reWsXY_false_of_wsz hch0
  simp [stdRole, show reBA lab.data = false from hba,
    show reRegion lab.data = false from hreg,
    show reHemi lab.data = false from hhem,
    show reSize lab.data = false from hsiz,
    show reWsXY lab.data = false from hxy,
    show reWsZ lab.data = true from h]

theorem stdRole_flag (prev : Option String) (found : Bool) (lab : String) :
    (stdRole prev found lab).2 = (found || reWsXY lab.toList) := by
  by_cases h : reWsXY lab.toList = true
  · rw [stdRole_wsXY h, h, Bool.or_true]
  · have hf : reWsXY lab.toList = false := by
      revert h; cases reWsXY lab.toList <;> simp
    simp only [stdRole, show reWsXY lab.data = false from hf, hf, Bool.or_false]
    split_ifs <;> first | rfl | exact (by assumption : False).elim

theorem prevOf_cons (p : Option String) (lab : String) (rest : List String)
    (i : Nat) : prevOf (some lab) rest i = prevOf p (lab :: rest) (i + 1) := by
  cases i with
  | zero => simp [prevOf]
  | succ j => simp [prevOf]

theorem saw_cons (lab : String) (rest : List String) (i : Nat) :
    sawCoordBefore (lab :: rest) (i + 1) =
      (reWsXY lab.toList || sawCoordBefore rest i) := by
  simp [sawCoordBefore, List.take_succ_cons]

theorem stdColsLoop_get :
    ∀ (labels : List String) (prev : Option String) (found : Bool) (i : Nat),
      i < labels.length →
      (stdColsLoop prev found labels).get? i =
        some ((stdRole (prevOf prev labels i)
          (found || sawCoordBefore labels i) (labels.getD i "")).1) := by
  intro labels
  induction labels with
  | nil => intro prev found i hi; simp at hi
  | cons lab rest ih =>
    intro prev found i hi
    cases i with
    | zero =>
      simp [stdColsLoop, prevOf, sawCoordBefore]
    | succ i2 =>
      simp only [stdColsLoop, List.get?_cons_succ]
      rw [ih (some lab) (stdRole prev found lab).2 i2 (by simpa using hi)]
      rw [stdRole_flag, prevOf_cons prev lab rest i2, saw_cons, List.getD_cons_succ]
      rw [Bool.or_assoc]

/-- C7.  A label that is exactly `z` with optional surrounding whitespace
is classified as coordinate `z` exactly when an x or y label occurred
earlier and the immediately preceding label is exactly `y`; otherwise it
is classified as `statistic`. -/
theorem c7_z_disambiguation (labels : List String) (i : Nat) (lz : String)
    (hg : labels.get? i = some lz) (hz : reWsZ lz.toList = true) :
    (identify_standard_columns labels).get? i =
      some (some (if sawCoordBefore labels i && (labels.getD (i - 1) "" == "y")
        then "z" else "statistic")) := by
  have hi : i < labels.length := (List.get?_eq_some.mp hg).1
  have hgd : labels.getD i "" = lz := by
    rw [List.getD_eq_getElem?_getD, ← List.get?_eq_getElem?, hg]
    rfl
  rw [identify_standard_columns, stdColsLoop_get labels none false i hi, hgd,
    stdRole_wsZ hz]
  cases i with
  | zero => simp [sawCoordBefore, prevOf]
  | succ j =>
    simp only [prevOf, Bool.false_or, Nat.add_sub_cancel]
    by_cases hs : sawCoordBefore labels (j + 1) = true
    · by_cases hy : labels.getD j "" = "y"
      · simp [hs, hy]
      · simp [hs, hy]
    · have hs2 : sawCoordBefore labels (j + 1) = false := by
        revert hs; cases sawCoordBefore labels (j + 1) <;> simp
      simp [hs2]

/-- C7 witness: an x/y/z header whose `z` is preceded by a region label
is classified as `statistic`. -/
theorem c7_witness :
    (identify_standard_columns ["x", "y", "region", "z"]).get? 3 =
      some (some (if sawCoordBefore ["x", "y", "region", "z"] 3 &&
        (["x", "y", "region", "z"].getD 2 "" == "y") then "z" else "statistic")) :=
  c7_z_disambiguation ["x", "y", "region", "z"] 3 "z" (by decide) (by decide)

theorem stdRole_mem (prev : Option String) (found : Bool) (lab : String) :
    (stdRole prev found lab).1 = none ∨
      ∃ s, (stdRole prev found lab).1 = some s ∧
        (s ∈ roleList ∨ reWsXY s.toList = true) := by
  by_cases hba : reBA lab.data = true
  · exact Or.inr ⟨"ba", by simp [stdRole, show reBA lab.data = true from hba], Or.inl (by simp [roleList])⟩
  by_cases hreg : reRegion lab.data = true
  · exact Or.inr ⟨"region", by simp [stdRole, show reBA lab.data = false from by simpa using hba,
      show reRegion lab.data = true from hreg], Or.inl (by simp [roleList])⟩
  by_cases hhem : reHemi lab.data = true
  · exact Or.inr ⟨"hemisphere", by simp [stdRole, show reBA lab.data = false from by simpa using hba,
      show reRegion lab.data = false from by simpa using hreg,
      show reHemi lab.data = true from hhem], Or.inl (by simp [roleList])⟩
  by_cases hsiz : reSize lab.data = true
  · exact Or.inr ⟨"size", by simp [stdRole, show reBA lab.data = false from by simpa using hba,
      show reRegion lab.data = false from by simpa using hreg,
      show reHemi lab.data = false from by simpa using hhem,
      show reSize lab.data = true from hsiz], Or.inl (by simp [roleList])⟩
  by_cases hxy : reWsXY lab.data = true
  · exact Or.inr ⟨lab, by simp [stdRole, show reBA lab.data = false from by simpa using hba,
      show reRegion lab.data = false from by simpa using hreg,
      show reHemi lab.data = false from by simpa using hhem,
      show reSize lab.data = false from by simpa using hsiz,
      show reWsXY lab.data = true from hxy], Or.inr hxy⟩
  by_cases hz : reWsZ lab.data = true
  · refine Or.inr ⟨if !found || prev ≠ some "y" then "statistic" else "z",
      by simp [stdRole, show reBA lab.data = false from by simpa using hba,
      show reRegion lab.data = false from by simpa using hreg,
      show reHemi lab.data = false from by simpa using hhem,
      show reSize lab.data = false from by simpa using hsiz,
      show reWsXY lab.data = false from by simpa using hxy,
      show reWsZ lab.data = true from hz], Or.inl ?_⟩
    split_ifs <;> simp [roleList]
  by_cases hrd : containsSub ['r', 'd', 'i', 'n', 'a', 't', 'e'] lab.data = true
  · exact Or.inl (by simp [stdRole, show reBA lab.data = false from by simpa using hba,
      show reRegion lab.data = false from by simpa using hreg,
      show reHemi lab.data = false from by simpa using hhem,
      show reSize lab.data = false from by simpa using hsiz,
      show reWsXY lab.data = false from by simpa using hxy,
      show reWsZ lab.data = false from by simpa using hz,
      show containsSub ['r', 'd', 'i', 'n', 'a', 't', 'e'] lab.data = true from hrd])
  by_cases hzt : (decide (lab = "t") || reZT lab.data) = true
  · exact Or.inr ⟨"statistic", by simp [stdRole, show reBA lab.data = false from by simpa using hba,
      show reRegion lab.data = false from by simpa using hreg,
      show reHemi lab.data = false from by simpa using hhem,
      show reSize lab.data = false from by simpa using hsiz,
      show reWsXY lab.data = false from by simpa using hxy,
      show reWsZ lab.data = false from by simpa using hz,
      show containsSub ['r', 'd', 'i', 'n', 'a', 't', 'e'] lab.data = false from by simpa using hrd,
      show (decide (lab = "t") || reZT lab.data) = true from hzt], Or.inl (by simp [roleList])⟩
  by_cases hpv : rePVal lab.data = true
  · exact Or.inr ⟨"p_value", by simp [stdRole, show reBA lab.data = false from by simpa using hba,
      show reRegion lab.data = false from by simpa using hreg,
      show reHemi lab.data = false from by simpa using hhem,
      show reSize lab.data = false from by simpa using hsiz,
      show reWsXY lab.data = false from by simpa using hxy,
      show reWsZ lab.data = false from by simpa using hz,
      show containsSub ['r', 'd', 'i', 'n', 'a', 't', 'e'] lab.data = false from by simpa using hrd,
      show (decide (lab = "t") || reZT lab.data) = false from by simpa using hzt,
      show rePVal lab.data = true from hpv], Or.inl (by simp [roleList])⟩
  · exact Or.inl (by simp [stdRole, show reBA lab.data = false from by simpa using hba,
      show reRegion lab.data = false from by simpa using hreg,
      show reHemi lab.data = false from by simpa using hhem,
      show reSize lab.data = false from by simpa using hsiz,
      show reWsXY lab.data = false from by simpa using hxy,
      show reWsZ lab.data = false from by simpa using hz,
      show containsSub ['r', 'd', 'i', 'n', 'a', 't', 'e'] lab.data = false from by simpa using hrd,
      show (decide (lab = "t") || reZT lab.data) = false from by simpa using hzt,
      show rePVal lab.data = false from by simpa using hpv])

/-- C6.  Corrected description of `identify_standard_columns`: every
entry is either none, a standard role, or the raw label itself when that
label is `x` or `y` up to surrounding whitespace (so a padded label like
a spaced x is propagated verbatim rather than normalized); a label that
is exactly `x` or exactly `y` receives that role, and any
whitespace-padded x/y label sets the coordinates-seen flag for the rest
of the scan. -/
theorem c6_roles_and_flag :
    (∀ (labels : List String) (o : Option String),
        o ∈ identify_standard_columns labels →
        o = none ∨ ∃ s, o = some s ∧ (s ∈ roleList ∨ reWsXY s.toList = true)) ∧
    (∀ (labels : List String) (i : Nat), labels.get? i = some "x" →
        (identify_standard_columns labels).get? i = some (some "x")) ∧
    (∀ (labels : List String) (i : Nat), labels.get? i = some "y" →
        (identify_standard_columns labels).get? i = some (some "y")) ∧
    (∀ (prev : Option String) (found : Bool) (lab : String) (rest : List String),
        reWsXY lab.toList = true →
        stdColsLoop prev found (lab :: rest) =
          some lab :: stdColsLoop (some lab) true rest) := by
  have haux : ∀ (labels : List String) (prev : Option String) (found : Bool)
      (o : Option String), o ∈ stdColsLoop prev found labels →
      o = none ∨ ∃ s, o = some s ∧ (s ∈ roleList ∨ reWsXY s.toList = true) := by
    intro labels
    induction labels with
    | nil => intro prev found o ho; cases ho
    | cons lab rest ih =>
      intro prev found o ho
      rcases List.mem_cons.mp ho with h1 | h1
      · rw [h1]
        exact stdRole_mem prev found lab
      · exact ih _ _ o h1
  refine ⟨fun labels o ho => haux labels none false o ho, ?_, ?_, ?_⟩
  · intro labels i hg
    have hi : i < labels.length := (List.get?_eq_some.mp hg).1
    have hgd : labels.getD i "" = "x" := by
      rw [List.getD_eq_getElem?_getD, ← List.get?_eq_getElem?, hg]
      rfl
    rw [identify_standard_columns, stdColsLoop_get labels none false i hi, hgd,
      stdRole_wsXY (by decide)]
  · intro labels i hg
    have hi : i < labels.length := (List.get?_eq_some.mp hg).1
    have hgd : labels.getD i "" = "y" := by
      rw [List.getD_eq_getElem?_getD, ← List.get?_eq_getElem?, hg]
      rfl
    rw [identify_standard_columns, stdColsLoop_get labels none false i hi, hgd,
      stdRole_wsXY (by decide)]
  · intro prev found lab rest h
    simp only [stdColsLoop]
    rw [stdRole_wsXY h]

/-- C6 counterexample: a whitespace-padded x label is assigned the raw
label, which is not a standard role and in particular is not `x`. -/
theorem c6_counterexample :
    identify_standard_columns [" x "] = [some " x "] ∧
      " x " ∉ roleList ∧ " x " ≠ "x" := by
  refine ⟨by decide, by decide, by decide⟩

/-- C6 witness: the exact label `x` receives role `x`. -/
theorem c6_witness : (identify_standard_columns ["x"]).get? 0 = some (some "x") :=
  c6_roles_and_flag.2.1 ["x"] 0 (by decide)

/-!  Claim C10: the header-repeat skip of the row loop. -/

theorem enumFrom_any_of_ex (labels : List String) :
    ∀ (r : List String) (k : Nat),
      (∃ i, i < r.length ∧ r.getD i "" = labels.getD (k + i) "") →
      (r.enumFrom k).any (fun iv => iv.2 == labels.getD iv.1 "") = true := by
  intro r
  induction r with
  | nil =>
    intro k hex
    obtain ⟨i, hi, -⟩ := hex
    cases hi
  | cons v rest ih =>
    intro k hex
    obtain ⟨i, hi, he⟩ := hex
    rw [List.enumFrom_cons, List.any_cons]
    cases i with
    | zero =>
      simp only [List.getD_cons_zero, Nat.add_zero] at he
      simp [he]
    | succ j =>
      have hr := ih (k + 1) ⟨j, by simpa using hi, by
        rw [show k + 1 + j = k + (j + 1) by omega]
        simpa [List.getD_cons_succ] using he⟩
      rw [hr, Bool.or_true]

theorem matchLabCheck_fold (labels : List String) :
    ∀ (r : List String) (k : Nat) (acc : Bool),
      k + r.length ≤ labels.length →
      (r.enumFrom k).foldlM (fun acc iv =>
        match labels.get? iv.1 with
        | none => Except.error ()
        | some l => Except.ok (acc || iv.2 == l)) acc =
      Except.ok (acc || (r.enumFrom k).any (fun iv => iv.2 == labels.getD iv.1 "")) := by
  intro r
  induction r with
  | nil =>
    intro k acc _
    simp only [List.enumFrom, List.foldlM_nil, List.any_nil, Bool.or_false]
    rfl
  | cons v rest ih =>
    intro k acc hlen
    rw [List.enumFrom_cons, List.foldlM_cons, List.any_cons]
    have hk : k < labels.length := by simp at hlen; omega
    have hget : labels.get? k = some (labels.getD k "") := by
      rw [List.get?_eq_getElem?, List.getElem?_eq_getElem hk,
        List.getD_eq_getElem?_getD, List.getElem?_eq_getElem hk]
      rfl
    simp only [hget]
    show (rest.enumFrom (k + 1)).foldlM _ (acc || v == labels.getD k "") = _
    rw [ih (k + 1) (acc || v == labels.getD k "") (by simp at hlen ⊢; omega)]
    rw [Bool.or_assoc]

/-- C10.  A data row in which any single cell is string-equal to the
lowercased label of its column is skipped entirely by the row loop: the
state (current group heading and accumulated activations) is unchanged,
so no activation is emitted from the row. -/
theorem c10_row_skip (labels : List String) (std : List (Option String))
    (groupCols : List (Nat × Nat)) (cig : List Bool)
    (mc : List ((Nat × String) × String)) (nCols : Nat)
    (st : Option String × List Activation) (r : List String)
    (hlen : r.length ≤ labels.length)
    (hex : ∃ i, i < r.length ∧ r.getD i "" = labels.getD i "") :
    rowStep labels std groupCols cig mc nCols st r = .ok st := by
  have hml : matchLabCheck labels r = .ok true := by
    rw [matchLabCheck]
    show (r.enumFrom 0).foldlM _ false = _
    rw [matchLabCheck_fold labels r 0 false (by omega)]
    rw [enumFrom_any_of_ex labels r 0 (by simpa using hex)]
    rfl
  rw [rowStep, hml]
  rfl

/-- C10 witness: a row whose first cell equals its column label is
skipped. -/
theorem c10_witness :
    rowStep ["x", "y"] [] [] [] [] 2 (none, []) ["x", "7"] = .ok (none, []) :=
  c10_row_skip ["x", "y"] [] [] [] [] 2 (none, []) ["x", "7"]
    (by decide) ⟨0, by decide, rfl⟩

/-!  Claim C8: the first-column rescue of the label scan. -/

theorem scanCell_preserves_zero (fx : Bool)
    (st : List (Option String) × List ((Nat × String) × String))
    (j : Nat) (v : String) (hj : 1 ≤ j) :
    (scanCell fx st (j, v)).1.getD 0 none = st.1.getD 0 none := by
  have hmc : ∀ (st2 : List (Option String) × List ((Nat × String) × String))
      (j2 : Nat) (val : String), (scanCellMc st2 j2 val).1 = st2.1 := by
    intro st2 j2 val
    cases hm : reMatch mcToks val.toList with
    | none => simp [scanCellMc, show reMatch mcToks val.data = none from hm]
    | some caps =>
      cases hg1 : capGet val.toList caps 1 with
      | none =>
        simp [scanCellMc, show reMatch mcToks val.data = some caps from hm,
          show capGet val.data caps 1 = none from hg1]
      | some g1 =>
        cases hg2 : capGet val.toList caps 2 with
        | none =>
          simp [scanCellMc, show reMatch mcToks val.data = some caps from hm,
            show capGet val.data caps 1 = some g1 from hg1,
            show capGet val.data caps 2 = none from hg2]
        | some g2 =>
          simp [scanCellMc, show reMatch mcToks val.data = some caps from hm,
            show capGet val.data caps 1 = some g1 from hg1,
            show capGet val.data caps 2 = some g2 from hg2]
  simp only [scanCell]
  split_ifs with h1 h2
  · exact absurd h2.1 (by omega)
  · simp only []
    rw [List.getD_eq_getElem?_getD, List.getElem?_set_ne (by omega),
      ← List.getD_eq_getElem?_getD]
  · rw [hmc]

theorem scanCells_preserve_zero (fx : Bool) :
    ∀ (cells : List String) (k : Nat)
      (st : List (Option String) × List ((Nat × String) × String)), 1 ≤ k →
      ((cells.enumFrom k).foldl (scanCell fx) st).1.getD 0 none =
        st.1.getD 0 none := by
  intro cells
  induction cells with
  | nil => intro k st _; rfl
  | cons v rest ih =>
    intro k st hk
    rw [List.enumFrom_cons, List.foldl_cons]
    rw [ih (k + 1) (scanCell fx st (k, v)) (by omega)]
    exact scanCell_preserves_zero fx st k v hk

/-- C8.  Corrected first-column rescue: at the row holding the first
non-empty, non-continuation cell of column 0, the label of column 0 is
forced to `region` exactly when all other columns already have labels or
the regex `\d+.*\d+.*\d+` matches the row cells joined by `/` (at least
three digits inside one newline-free stretch, possibly all in a single
cell); otherwise the label is the stripped cell text. -/
theorem c8_first_column_rescue (labs : List (Option String))
    (mcs : List ((Nat × String) × String)) (v : String) (rest : List String)
    (hlen : 0 < labs.length) (h0 : labs.getD 0 none = none)
    (hne : stripS v ≠ "") (hpre : ¬ startsWithStr "@@" (stripS v) = true) :
    (scanRow (labs, mcs) (v :: rest)).1.getD 0 none =
      some (if ¬ (labs.drop 1).contains none ∨ foundXyzRow (v :: rest) = true
        then "region" else stripS v) := by
  rw [scanRow]
  show ((((v :: rest).enumFrom 0).foldl (scanCell (foundXyzRow (v :: rest)))
    (labs, mcs)).1.getD 0 none) = _
  rw [List.enumFrom_cons, List.foldl_cons]
  rw [scanCells_preserve_zero (foundXyzRow (v :: rest)) rest 1 _ (by omega)]
  unfold scanCell
  rw [if_pos ⟨hne, hpre, h0⟩]
  by_cases hc : ¬ (labs.drop 1).contains none = true ∨ foundXyzRow (v :: rest) = true
  · rw [if_pos ⟨rfl, hc⟩]
    simp only []
    rw [List.getD_eq_getElem?_getD, List.getElem?_set_self (by simpa using hlen)]
    rw [if_pos hc]
    rfl
  · rw [if_neg (fun hand => hc hand.2)]
    simp only []
    rw [List.getD_eq_getElem?_getD, List.getElem?_set_self (by simpa using hlen)]
    rw [if_neg hc]
    rfl

/-- C8 counterexample: a single first-column cell bearing three digits
triggers the rescue even though the row has only one digit-bearing cell
and the other column is still unlabeled, so neither condition of the
claim holds; the claim would keep the cell text. -/
theorem c8_counterexample :
    (([["foo123", "lab"]]).foldl scanRow
      (List.replicate 2 (none : Option String), [])).1 =
        [some "region", some "lab"] ∧
    (["foo123", "lab"].filter (fun c => c.toList.any pyIsDigit)).length = 1 ∧
    ((List.replicate 2 (none : Option String)).drop 1).contains none = true ∧
    stripS "foo123" = "foo123" ∧ "foo123" ≠ "region" := by
  refine ⟨by decide, by decide, by decide, by decide, by decide⟩

/-- C8 witness: the rescue step at a concrete row. -/
theorem c8_witness :
    (scanRow ([none, some "q"], []) ["hello", "1 2 3"]).1.getD 0 none =
      some (if ¬ (([none, some "q"] : List (Option String)).drop 1).contains none ∨
          foundXyzRow ["hello", "1 2 3"] = true
        then "region" else stripS "hello") :=
  c8_first_column_rescue [none, some "q"] [] "hello" ["1 2 3"]
    (by decide) (by decide) (by decide) (by decide)

theorem srcCellLoop_split (j nCells nCols : Nat) :
    ∀ (cs : List HCell) (c : HCell) (dt : DT) (i cf : Nat),
      i + cs.length + 1 = nCells →
      srcCellLoop j nCells nCols dt i cf (cs ++ [c]) =
        srcCellLoop j nCells nCols (srcPrefix dt cs) (i + cs.length)
          (cf + colspanSum cs) [c] := by
  intro cs
  induction cs with
  | nil =>
    intro c dt i cf _
    simp [srcPrefix, colspanSum]
  | cons c0 cs ih =>
    intro c dt i cf hlen
    simp only [List.length_cons] at hlen
    rw [List.cons_append]
    simp only [srcCellLoop]
    rw [if_neg (fun hand => absurd hand.1 (by omega))]
    have h1 : srcPrefix dt (c0 :: cs) =
        srcPrefix (add_val dt c0.text c0.rowspan c0.colspan) cs := rfl
    have h2 : i + (c0 :: cs).length = (i + 1) + cs.length := by
      simp only [List.length_cons]
      omega
    have h3 : cf + colspanSum (c0 :: cs) = (cf + c0.colspan) + colspanSum cs := by
      simp only [colspanSum, List.map_cons, List.sum_cons]
      omega
    rw [h1, h2, h3]
    exact ih c (add_val dt c0.text c0.rowspan c0.colspan) (i + 1)
      (cf + c0.colspan) (by omega)

/-- C9.  Corrected last-cell extension: processing a row `cs ++ [c]`, the
cell loop places every cell of `cs` with its declared colspan, and the
final cell `c` with colspan extended to fill the row out to `n_cols`
exactly when the running column total is still short of `n_cols`, the
grid at that moment has exactly `j + 1` rows, AND the number of open
cells of grid row `j` exceeds the declared colspan; when any of the
three fails — in particular when an earlier rowspan already grew the
grid past row `j + 1` — the declared colspan is kept. -/
theorem c9_last_cell_extension (j nCols : Nat) (cs : List HCell) (c : HCell)
    (dt : DT) :
    srcCellLoop j (cs.length + 1) nCols dt 0 0 (cs ++ [c]) =
      add_val (srcPrefix dt cs) c.text c.rowspan
        (if colspanSum cs + c.colspan < nCols ∧
            (srcPrefix dt cs).data.length = j + 1 ∧
            c.colspan < ((srcPrefix dt cs).data.getD j []).count none
          then nCols - colspanSum cs
          else c.colspan) := by
  rw [srcCellLoop_split j (cs.length + 1) nCols cs c dt 0 0 (by omega)]
  simp only [srcCellLoop, Nat.zero_add]
  by_cases h : colspanSum cs + c.colspan < nCols ∧
      (srcPrefix dt cs).data.length = j + 1 ∧
      c.colspan < ((srcPrefix dt cs).data.getD j []).count none
  · rw [if_pos ⟨trivial, h⟩, if_pos h]
    congr 1
    omega
  · rw [if_neg (fun hand => h hand.2), if_neg h]

/-- C9 counterexample: a rowspan-3 cell in row 0 grows the grid to three
rows, so when the single cell of row 1 is placed the grid has 3 rows,
not `j + 1 = 2`; the claim's two conditions hold (running total `1 < 3`,
two open cells in row 1 exceed the declared colspan `1`) yet the cell is
not extended and row 1 keeps an unfilled cell. -/
theorem c9_counterexample :
    sourceBuildGrid [[⟨"A", 3, 1⟩, ⟨"B", 1, 1⟩, ⟨"C", 1, 1⟩], [⟨"D", 1, 1⟩]] =
      some ⟨[[some "A", some "B", some "C"], [some "A", some "D", none],
        [some "A", none, none]], 3⟩ ∧
    srcRowLoop 3 ⟨[], 3⟩ 0 [[⟨"A", 3, 1⟩, ⟨"B", 1, 1⟩, ⟨"C", 1, 1⟩]] =
      ⟨[[some "A", some "B", some "C"], [some "A", none, none],
        [some "A", none, none]], 3⟩ ∧
    ((0 : Nat) + 1 < 3 ∧ 1 <
      (([[some "A", some "B", some "C"], [some "A", none, none],
        [some "A", none, none]] : List (List (Option String))).getD 1
          []).count none) ∧
    ¬ (([[some "A", some "B", some "C"], [some "A", none, none],
        [some "A", none, none]] : List (List (Option String))).length
          = 1 + 1) := by
  refine ⟨by decide, by decide, by decide, by decide⟩

theorem setCell_length (g : List (List (Option String))) (r c : Nat)
    (v : String) : (setCell g r c v).length = g.length := by
  simp [setCell]

theorem setCell_row_length (g : List (List (Option String))) (r c : Nat)
    (v : String) (r2 : Nat) :
    ((setCell g r c v).getD r2 []).length = (g.getD r2 []).length := by
  simp only [setCell, List.getD_eq_getElem?_getD]
  rcases eq_or_ne r r2 with h | h
  · subst h
    by_cases hr : r < g.length
    · rw [List.getElem?_set_self hr]
      simp
    · rw [List.set_eq_of_length_le (Nat.le_of_not_lt hr)]
  · rw [List.getElem?_set_ne h]

theorem cellAt_setCell_self {g : List (List (Option String))} {r c : Nat}
    {v : String} (hr : r < g.length) (hc : c < (g.getD r []).length) :
    cellAt (setCell g r c v) r c = some v := by
  simp only [cellAt, setCell, List.getD_eq_getElem?_getD]
  rw [List.getElem?_set_self hr]
  simp only [Option.getD_some]
  rw [List.getElem?_set_self
    (show c < (g[r]?.getD []).length by
      rw [← List.getD_eq_getElem?_getD]; exact hc)]
  rfl

theorem cellAt_setCell_ne {g : List (List (Option String))} {r c r2 c2 : Nat}
    {v : String} (h : r2 ≠ r ∨ c2 ≠ c) :
    cellAt (setCell g r c v) r2 c2 = cellAt g r2 c2 := by
  simp only [cellAt, setCell, List.getD_eq_getElem?_getD]
  rcases eq_or_ne r r2 with he | hne
  · subst he
    rcases h with h | h
    · exact absurd rfl h
    · by_cases hr : r < g.length
      · rw [List.getElem?_set_self hr]
        simp only [Option.getD_some]
        rw [List.getElem?_set_ne (Ne.symm h)]
      · rw [List.set_eq_of_length_le (Nat.le_of_not_lt hr)]
  · rw [List.getElem?_set_ne hne]

theorem writeCols_length (g : List (List (Option String))) (ri ci : Nat)
    (val : String) (cols2 : Nat) :
    ∀ k, (writeCols g ri ci val cols2 k).length = g.length := by
  intro k
  induction k with
  | zero => rfl
  | succ k ih => rw [writeCols, setCell_length, ih]

theorem writeCols_row_length (g : List (List (Option String))) (ri ci : Nat)
    (val : String) (cols2 : Nat) :
    ∀ k r2, ((writeCols g ri ci val cols2 k).getD r2 []).length =
      (g.getD r2 []).length := by
  intro k
  induction k with
  | zero => intro r2; rfl
  | succ k ih => intro r2; rw [writeCols, setCell_row_length, ih]

theorem writeCols_cell_ne_row (g : List (List (Option String))) (ri ci : Nat)
    (val : String) (cols2 : Nat) (r2 c2 : Nat) (h : r2 ≠ ri) :
    ∀ k, cellAt (writeCols g ri ci val cols2 k) r2 c2 = cellAt g r2 c2 := by
  intro k
  induction k with
  | zero => rfl
  | succ k ih => rw [writeCols, cellAt_setCell_ne (Or.inl h), ih]

theorem writeCols_cell (g : List (List (Option String))) (ri ci : Nat)
    (val : String) (cols2 : Nat) :
    ∀ k c, c < k → ri < g.length → ci + c < (g.getD ri []).length →
      cellAt (writeCols g ri ci val cols2 k) ri (ci + c) =
        some (spanContent val cols2 c) := by
  intro k
  induction k with
  | zero => intro c hc _ _; exact absurd hc (Nat.not_lt_zero c)
  | succ k ih =>
    intro c hc hr hcl
    rw [writeCols]
    rcases Nat.lt_or_ge c k with h | h
    · rw [cellAt_setCell_ne (Or.inr (by omega))]
      exact ih c h hr hcl
    · have hck : c = k := by omega
      subst hck
      exact cellAt_setCell_self
        (by rw [writeCols_length]; exact hr)
        (by rw [writeCols_row_length]; exact hcl)

theorem writeRows_length (g : List (List (Option String))) (ri ci : Nat)
    (val : String) (cols2 : Nat) :
    ∀ k, (writeRows g ri ci val cols2 k).length = g.length := by
  intro k
  induction k with
  | zero => rfl
  | succ k ih => rw [writeRows, writeCols_length, ih]

theorem writeRows_row_length (g : List (List (Option String))) (ri ci : Nat)
    (val : String) (cols2 : Nat) :
    ∀ k r2, ((writeRows g ri ci val cols2 k).getD r2 []).length =
      (g.getD r2 []).length := by
  intro k
  induction k with
  | zero => intro r2; rfl
  | succ k ih => intro r2; rw [writeRows, writeCols_row_length, ih]

theorem writeRows_cell (g : List (List (Option String))) (ri ci : Nat)
    (val : String) (cols2 : Nat) :
    ∀ k r c, r < k → c < cols2 → ri + r < g.length →
      ci + c < (g.getD (ri + r) []).length →
      cellAt (writeRows g ri ci val cols2 k) (ri + r) (ci + c) =
        some (spanContent val cols2 c) := by
  intro k
  induction k with
  | zero => intro r c hr _ _ _; exact absurd hr (Nat.not_lt_zero r)
  | succ k ih =>
    intro r c hr hc hrow hcol
    rw [writeRows]
    rcases Nat.lt_or_ge r k with h | h
    · rw [writeCols_cell_ne_row _ _ _ _ _ _ _ (by omega)]
      exact ih r c h hc hrow hcol
    · have hrk : r = k := by omega
      subst hrk
      exact writeCols_cell _ (ri + r) ci val cols2 cols2 c hc
        (by rw [writeRows_length]; exact hrow)
        (by rw [writeRows_row_length]; exact hcol)

/-- C3.  Corrected span contents: inside the (clipped) span placed by
`add_val`, EVERY row repeats the same pattern — with an effective
colspan above 1 the cell at column offset 0 of each row holds
`"@@<text>@<c>"` and the other cells of that row hold `"@@<text>"`,
while with an effective colspan of 1 every cell of the span, the
continuation rows of a multi-row single-column span included, holds the
plain text. -/
theorem c3_span_cells (dt : DT) (val : String) (rows cols r c : Nat)
    (hr : r < rows)
    (hc : c < clipCols dt.n_cols (openPosOf dt % dt.n_cols) cols)
    (hrow : openPosOf dt / dt.n_cols + r <
      (dt.data ++ List.replicate (growCount dt rows)
        (List.replicate dt.n_cols none)).length)
    (hcol : openPosOf dt % dt.n_cols + c <
      ((dt.data ++ List.replicate (growCount dt rows)
        (List.replicate dt.n_cols none)).getD
        (openPosOf dt / dt.n_cols + r) []).length) :
    cellAt (add_val dt val rows cols).data
        (openPosOf dt / dt.n_cols + r) (openPosOf dt % dt.n_cols + c) =
      some (spanContent val
        (clipCols dt.n_cols (openPosOf dt % dt.n_cols) cols) c) := by
  exact writeRows_cell
    (dt.data ++ List.replicate (growCount dt rows)
      (List.replicate dt.n_cols none))
    (openPosOf dt / dt.n_cols) (openPosOf dt % dt.n_cols) val
    (clipCols dt.n_cols (openPosOf dt % dt.n_cols) cols)
    rows r c hr hc hrow hcol

/-- C3 counterexample: a value spanning two rows and one column is
written as the plain text into BOTH cells; the claim says the
continuation cell of such a span holds the marker `"@@t"`. -/
theorem c3_counterexample :
    (add_val ⟨[], 1⟩ "t" 2 1).data = [[some "t"], [some "t"]] ∧
    cellAt (add_val ⟨[], 1⟩ "t" 2 1).data 1 0 = some "t" ∧
    some "t" ≠ some ("@@" ++ "t") := by
  refine ⟨by decide, by decide, by decide⟩

/-- C3 witness: the span-content law at a concrete two-by-two span, read
at the anchor column of the second row. -/
theorem c3_witness :
    cellAt (add_val ⟨[], 2⟩ "t" 2 2).data
        (openPosOf ⟨[], 2⟩ / 2 + 1) (openPosOf ⟨[], 2⟩ % 2 + 0) =
      some (spanContent "t" (clipCols 2 (openPosOf ⟨[], 2⟩ % 2) 2) 0) :=
  c3_span_cells ⟨[], 2⟩ "t" 2 2 1 0 (by decide) (by decide) (by decide)
    (by decide)

/-- C4.  Corrected x/y/z handling of `create_activation`: on a column
whose standard role is x, y or z, the minus-space fix-up is applied and
the result is gated by the optionally-signed-decimal pattern.  A failed
gate records a problem and returns at once — the remaining columns and
the final `groups` assignment are skipped — returning the activation
accumulated SO FAR, which has NOT necessarily failed validation (an
earlier column can already have filled x, y and z through the
multi-coordinate harvest).  A passed gate coerces the value to floating
point and stores it under the role name. -/
theorem c4_xyz_gate (labels : List String) (std : List (Option String))
    (g : GroupsVal) (a : Activation) (i : Nat) (sc colStr : String)
    (rest : List String)
    (hstd : std.get? i = some (some sc)) (hrole : xyzRole sc = true) :
    (gateOK (fixNegSpace colStr) = false →
      caLoop labels std g a i (colStr :: rest) =
        .ok { a with problems :=
          a.problems ++ ["Value in " ++ sc ++ " column is not valid"] }) ∧
    (∀ q : Rat, gateOK (fixNegSpace colStr) = true →
      pyFloat (fixNegSpace colStr).toList = some q →
      caStep a (some sc) colStr = .ok (.cont (setAttr a sc (.f q)) (.f q))) := by
  constructor
  · intro hgate
    have hstep : caStep a (some sc) colStr =
        .ok (.abort { a with problems :=
          a.problems ++ ["Value in " ++ sc ++ " column is not valid"] }) := by
      simp [caStep, hrole, hgate]
    simp only [caLoop, hstd, hstep]
  · intro q hgate hq
    simp [caStep, hrole, hgate,
      show pyFloat (fixNegSpace colStr).data = some q from hq]

/-- C4 counterexample: the first column (no standard role) carries three
coordinates that the harvest turns into x, y and z; the second column
has role x and fails the gate, so the run aborts with a recorded
problem — yet the returned activation PASSES validation, where the
claim says an activation returned through this abort always fails it. -/
theorem c4_counterexample :
    create_activation ["10; 20; 30", "abc"] ["foo", "x"] [none, some "x"]
        .unset =
      .ok { x := some (.f 10), y := some (.f 20), z := some (.f 30),
            columns := [("foo", Value.s "10; 20; 30")],
            problems := ["Value in x column is not valid"] } ∧
    validate { x := some (.f 10), y := some (.f 20), z := some (.f 30),
               columns := [("foo", Value.s "10; 20; 30")],
               problems := ["Value in x column is not valid"] } = .ok true ∧
    ({ x := some (.f 10), y := some (.f 20), z := some (.f 30),
       columns := [("foo", Value.s "10; 20; 30")],
       problems := ["Value in x column is not valid"] } :
        Activation).problems ≠ [] := by
  refine ⟨by decide, by decide, by decide⟩

/-- C4 witness: the abort clause at a one-column table whose x cell is
not numeric. -/
theorem c4_witness :
    caLoop ["x"] [some "x"] .unset {} 0 ["abc"] =
      .ok { ({} : Activation) with problems :=
        ({} : Activation).problems ++
          ["Value in " ++ "x" ++ " column is not valid"] } :=
  (c4_xyz_gate ["x"] [some "x"] .unset {} 0 "x" "abc" []
    (by decide) (by decide)).1 (by decide)

theorem sort3_two_zero {a b c : Rat} (ha : 0 ≤ a) (hb : 0 ≤ b) (hc : 0 ≤ c)
    (h2 : (a = 0 ∧ b = 0) ∨ (a = 0 ∧ c = 0) ∨ (b = 0 ∧ c = 0)) :
    (sort3 a b c).getD 0 1 = 0 ∧ (sort3 a b c).getD 1 1 = 0 := by
  unfold sort3
  rcases h2 with ⟨h1, h2⟩ | ⟨h1, h2⟩ | ⟨h1, h2⟩ <;> subst h1 <;> subst h2 <;>
    split_ifs <;> refine ⟨?_, ?_⟩ <;>
    simp only [List.getD_cons_zero, List.getD_cons_succ] <;>
    first | rfl | linarith

theorem validate_ok_true {a : Activation} (h : validate a = .ok true) :
    ValidSpecA a := by
  unfold validate at h
  cases hx : a.x with
  | none => rw [hx] at h; simp [coordMissing] at h
  | some vx =>
    rw [hx] at h
    cases vx with
    | s sv =>
      by_cases hsv : sv = "" <;> simp [coordMissing, coordAbs, hsv] at h
    | f qx =>
      simp only [coordMissing, coordAbs, Bool.false_eq_true, if_false] at h
      by_cases h100x : (100 : Rat) ≤ |qx|
      · rw [if_pos h100x] at h; cases h
      · rw [if_neg h100x] at h
        cases hy : a.y with
        | none => rw [hy] at h; simp [coordMissing] at h
        | some vy =>
          rw [hy] at h
          cases vy with
          | s sv =>
            by_cases hsv : sv = "" <;> simp [coordMissing, coordAbs, hsv] at h
          | f qy =>
            simp only [coordMissing, coordAbs, Bool.false_eq_true,
              if_false] at h
            by_cases h100y : (100 : Rat) ≤ |qy|
            · rw [if_pos h100y] at h; cases h
            · rw [if_neg h100y] at h
              cases hz : a.z with
              | none => rw [hz] at h; simp [coordMissing] at h
              | some vz =>
                rw [hz] at h
                cases vz with
                | s sv =>
                  by_cases hsv : sv = "" <;>
                    simp [coordMissing, coordAbs, hsv] at h
                | f qz =>
                  simp only [coordMissing, coordAbs, Bool.false_eq_true,
                    if_false] at h
                  by_cases h100z : (100 : Rat) ≤ |qz|
                  · rw [if_pos h100z] at h; cases h
                  · rw [if_neg h100z] at h
                    by_cases hzz : (sort3 |qx| |qy| |qz|).getD 0 1 = 0 ∧
                        (sort3 |qx| |qy| |qz|).getD 1 1 = 0
                    · rw [if_pos hzz] at h; cases h
                    · refine ⟨qx, qy, qz, hx, hy, hz, not_le.mp h100x,
                        not_le.mp h100y, not_le.mp h100z, ?_⟩
                      by_contra hcnt
                      by_cases hx0 : qx = 0 <;> by_cases hy0 : qy = 0 <;>
                        by_cases hz0 : qz = 0 <;>
                        simp [hx0, hy0, hz0] at hcnt
                      · exact hzz (sort3_two_zero (abs_nonneg qx)
                          (abs_nonneg qy) (abs_nonneg qz)
                          (Or.inl ⟨abs_eq_zero.mpr hx0, abs_eq_zero.mpr hy0⟩))
                      · exact hzz (sort3_two_zero (abs_nonneg qx)
                          (abs_nonneg qy) (abs_nonneg qz)
                          (Or.inl ⟨abs_eq_zero.mpr hx0, abs_eq_zero.mpr hy0⟩))
                      · exact hzz (sort3_two_zero (abs_nonneg qx)
                          (abs_nonneg qy) (abs_nonneg qz)
                          (Or.inr (Or.inl ⟨abs_eq_zero.mpr hx0,
                            abs_eq_zero.mpr hz0⟩)))
                      · exact hzz (sort3_two_zero (abs_nonneg qx)
                          (abs_nonneg qy) (abs_nonneg qz)
                          (Or.inr (Or.inr ⟨abs_eq_zero.mpr hy0,
                            abs_eq_zero.mpr hz0⟩)))

theorem foldlM_sound {β : Type} (f : Option String × List Activation → β →
      Except Unit (Option String × List Activation))
    (hf : ∀ st b st2, f st b = .ok st2 → ∀ a ∈ st2.2, a ∈ st.2 ∨
      validate a = .ok true) :
    ∀ (l : List β) (st fin : Option String × List Activation),
      l.foldlM f st = .ok fin → ∀ a ∈ fin.2, a ∈ st.2 ∨
        validate a = .ok true := by
  intro l
  induction l with
  | nil =>
    intro st fin h a ha
    replace h : (Except.ok st : Except Unit _) = .ok fin := h
    cases h
    exact Or.inl ha
  | cons b l ih =>
    intro st fin h a ha
    rw [List.foldlM_cons] at h
    cases hfb : f st b with
    | error e =>
      rw [hfb] at h
      replace h : (Except.error e : Except Unit _) = .ok fin := h
      cases h
    | ok st1 =>
      rw [hfb] at h
      replace h : l.foldlM f st1 = .ok fin := h
      rcases ih st1 fin h a ha with hm | hval
      · exact hf st b st1 hfb a hm
      · exact Or.inr hval

theorem groupStep_mem {r : List String} {cig : List Bool}
    {labels : List String} {std : List (Option String)}
    {mc : List ((Nat × String) × String)}
    {st st2 : Option String × List Activation} {gp : Nat × Nat}
    (h : groupStep r cig labels std mc st gp = .ok st2) :
    ∀ a ∈ st2.2, a ∈ st.2 ∨ validate a = .ok true := by
  simp only [groupStep] at h
  split at h
  · cases h
  · split at h
    · cases h
    · split at h
      · cases h
      · cases h
        intro a ha
        rcases List.mem_append.mp ha with hm | hm
        · exact Or.inl hm
        · right
          rw [List.mem_singleton] at hm
          subst hm
          assumption
      · cases h
        intro a ha
        exact Or.inl ha

theorem rowStep_mem {labels : List String} {std : List (Option String)}
    {groupCols : List (Nat × Nat)} {cig : List Bool}
    {mc : List ((Nat × String) × String)} {nCols : Nat}
    {st st2 : Option String × List Activation} {r : List String}
    (h : rowStep labels std groupCols cig mc nCols st r = .ok st2) :
    ∀ a ∈ st2.2, a ∈ st.2 ∨ validate a = .ok true := by
  simp only [rowStep] at h
  split at h
  · cases h
  · split at h
    · cases h
      intro a ha
      exact Or.inl ha
    · split at h
      · cases h
      · split at h
        · cases h
          intro a ha
          exact Or.inl ha
        · split at h
          · cases h
          · cases h
            intro a ha
            exact Or.inl ha
          · split at h
            · cases h
              intro a ha
              exact Or.inl ha
            · split at h
              · split at h
                · cases h
                · split at h
                  · cases h
                  · cases h
                    intro a ha
                    rcases List.mem_append.mp ha with hm | hm
                    · exact Or.inl hm
                    · right
                      rw [List.mem_singleton] at hm
                      subst hm
                      assumption
                  · cases h
                    intro a ha
                    exact Or.inl ha
              · exact foldlM_sound _ (fun s b s2 hh => groupStep_mem hh)
                  groupCols st st2 h

/-- C1.  Every activation contained in a `Table` returned by
`parse_table` passes the section 4.4 validator property: x, y and z are
present as numbers, all three absolute values are below 100, and at
most one of the three coordinates is zero. -/
theorem c1_activations_valid (grid : List (List String)) (nColsIn : Nat)
    (t : Table) (h : parse_table grid nColsIn = .ok (some t)) :
    ∀ a ∈ t.activations, ValidSpecA a := by
  simp only [parse_table] at h
  split at h
  · cases h
  · split at h
    · cases h
    · rename_i fin hfin
      split_ifs at h with hemp
      · cases h
      · cases h
        intro a ha
        rcases foldlM_sound _ (fun s b s2 hh => rowStep_mem hh) grid
          (none, []) fin hfin a ha with hm | hval
        · simp at hm
        · exact validate_ok_true hval

/-- C1 witness: a grid whose label row is x, y, z and whose single data
row carries the coordinates 10, 20, 30 produces a table with exactly one
activation, and every activation of that table satisfies the validator
property. -/
theorem c1_witness :
    ValidSpecA { x := some (.f 10), y := some (.f 20), z := some (.f 30),
                 columns := [("x", Value.f 10), ("y", Value.f 20),
                   ("z", Value.f 30)],
                 groups := .ofRow none } :=
  c1_activations_valid [["x", "y", "z"], ["10", "20", "30"]] 3
    ⟨[{ x := some (.f 10), y := some (.f 20), z := some (.f 30),
        columns := [("x", Value.f 10), ("y", Value.f 20), ("z", Value.f 30)],
        groups := .ofRow none }], 1⟩ (by decide) _ (List.mem_singleton.mpr rfl)

end ACE
